import Mathlib

/-!
# Cookbook service of the chef client (`cookbook.go`)

A shallow embedding of `cookbook.go` and a verification development over it.

Conventions of the embedding.

* Go strings are Lean strings; a Go `error` is identified with its message
  (`Err`), `nil` being `none`.
* Go byte slices are lists of naturals (`Bytes`).
* The collaborators that live outside `cookbook.go` (the HTTP client, the
  sandbox service, the JSON encoder, the file system, `crypto/md5`) are the
  fields of `Env`.  The network collaborators receive the history of the
  calls made so far, so that their answers may depend on everything that
  happened before; the file system is a snapshot that does not change during
  one call.
* Every call to a network collaborator is logged, in chronological order, in a
  `Trace`.  Output on stdout (`fmt.Println`) and `Close` on file handles
  (whose results the code discards) are not logged.
* `os.Exit` and a nil dereference end a run; `Outcome` tells how a run ended.
-/

namespace Chef

/-! ## Data model -/

/-- A Go `error`, identified with its message. -/
abbrev Err := String

/-- A Go `[]byte`. -/
abbrev Bytes := List Nat

/-- The type `CookbookItemPut`. -/
structure CookbookItemPut where
  Path : String
  Name : String
  Checksum : String
  Specificity : String
deriving DecidableEq, Repr

/-- The type `CookbookVersion`. -/
structure CookbookVersion where
  Url : String
  Version : String
deriving DecidableEq, Repr

/-- The type `CookbookVersions`. -/
structure CookbookVersions where
  Url : String
  Versions : List CookbookVersion
deriving DecidableEq, Repr

/-- The type `CookbookListResult`, a Go map given by its bindings. -/
abbrev CookbookListResult := List (String × CookbookVersions)

/-- The type `CookbookMetaPut`.  Go maps are given by their bindings; a value of
type `interface{}` is kept as the JSON text it stands for. -/
structure CookbookMetaPut where
  Name : String
  Version : String
  Description : String
  LongDescription : String
  Maintainer : String
  MaintainerEmail : String
  License : String
  Platforms : List (String × String)
  Depends : List (String × String)
  Reccomends : List (String × String)
  Suggests : List (String × String)
  Conflicts : List (String × String)
  Provides : List (String × String)
  Replaces : List (String × String)
  Attributes : List (String × String)
  Groupings : List (String × String)
  Recipes : List (String × String)
deriving DecidableEq, Repr

/-- The type `CookbookPut`. -/
structure CookbookPut where
  CookbookName : String
  Name : String
  Version : String
  ChefType : String
  Frozen : Bool
  JsonClass : String
  Files : List CookbookItemPut
  Templates : List CookbookItemPut
  Attributes : List CookbookItemPut
  Recipes : List CookbookItemPut
  Definitions : List CookbookItemPut
  Libraries : List CookbookItemPut
  Providers : List CookbookItemPut
  Resources : List CookbookItemPut
  RootFiles : List CookbookItemPut
  Metadata : CookbookMetaPut
deriving DecidableEq, Repr

/-- Modelled from the spec: the slot of one digest in the answer of the
sandbox-creation endpoint, `{needs_upload: bool, upload_url: string}`; its Go
declaration is outside `cookbook.go`, which reads the fields `Upload` and
`Url`. -/
structure SandboxItem where
  Url : String
  Upload : Bool
deriving DecidableEq, Repr

/-- Modelled from the spec: the answer of the sandbox-creation endpoint,
`{sandboxID, map[Digest]slot}`; its Go declaration is outside `cookbook.go`,
which reads the fields `ID` and `Checksums`.  The Go map `Checksums` is given
by its bindings in the order in which `range` visits them. -/
structure SandboxPostResult where
  ID : String
  Checksums : List (String × SandboxItem)
deriving DecidableEq, Repr

/-- Modelled from the spec: the headers of a request; `Set` is `headerSet`. -/
abbrev Header := List (String × String)

/-- Modelled from the spec: `Header.Set key value` replaces whatever is stored
under `key`. -/
def headerSet (h : Header) (key value : String) : Header :=
  (key, value) :: h.filter (fun kv => kv.1 != key)

/-- The value stored under `key`, if any. -/
def headerGet (h : Header) (key : String) : Option String :=
  h.lookup key

/-- Modelled from the spec: the request that `Client.NewRequest(method, url,
body)` builds, `request(method, path, body)`.  `Body` is the path of the open
file that supplies the bytes, `none` for the nil handle that a failed
`os.Open` leaves behind. -/
structure Request where
  Method : String
  Url : String
  Body : Option String
  Header : Header
deriving DecidableEq, Repr

/-- One logged call, with what it answered. -/
inductive Event where
  /-- The call `Sandboxes.Post(checksums)`; `result` is the answer, `none` when
  `err != nil`. -/
  | sandboxPost (checksums : List String) (result : Option SandboxPostResult)
  /-- The call `client.NewRequest(method, url, body)`; `ok` tells whether `err == nil`. -/
  | newRequest (method url : String) (body : Option String) (ok : Bool)
  /-- The call `client.Do(req, nil)`; `ok` tells whether `err == nil`. -/
  | doRequest (req : Request) (ok : Bool)
  /-- The call `Sandboxes.Put(id)`; `ok` tells whether `err == nil`. -/
  | sandboxPut (id : String) (ok : Bool)
  /-- Entry into `CookbookService.Put(name, version, cookbook)`. -/
  | cookbookPut (name version : String) (cookbook : CookbookPut)
  /-- The call `client.magicRequestDecoder(method, path, body, v)`; `ok` tells whether
  `err == nil`. -/
  | magicRequest (method path : String) (body : Option String) (ok : Bool)
  /-- The call `os.Exit(code)`. -/
  | exit (code : Nat)
deriving DecidableEq

/-- The calls of a run, oldest first. -/
abbrev Trace := List Event

/-- How a run of a function with result `error` ends. -/
inductive Outcome where
  /-- The function returned `err`. -/
  | returned (err : Option Err)
  /-- The process ended in `os.Exit(code)`. -/
  | exited (code : Nat)
  /-- The run ended in a nil-pointer dereference. -/
  | panicked
deriving DecidableEq, Repr

/-- The collaborators of `cookbook.go`. -/
structure Env where
  /-- The function `filepath.Join` on two elements. -/
  join : String → String → String
  /-- The call `filepath.Walk(root, fn)`: the calls of `fn` in order, each with the path
  and `f.IsDir()`, `none` when `f` is nil. -/
  walk : String → List (String × Option Bool)
  /-- The call `os.Open(path)`: the error, if any. -/
  osOpen : String → Option Err
  /-- The call `io.Copy(hash, file)` on the open file at `path`: the bytes read, or the
  read error. -/
  ioCopy : String → Except Err Bytes
  /-- The MD5 sum `hash.Sum(nil)` of the bytes written to `md5.New()`. -/
  md5Sum : Bytes → Bytes
  /-- The call `Sandboxes.Post(checksums)`. -/
  sandboxPost : Trace → List String → Except Err SandboxPostResult
  /-- The call `client.NewRequest(method, url, body)`: the headers of the new request,
  or the error. -/
  newRequest : Trace → String → String → Option String → Except Err Header
  /-- The call `client.Do(req, nil)`: the error, if any. -/
  doRequest : Trace → Request → Option Err
  /-- The call `Sandboxes.Put(id)`: the error, if any. -/
  sandboxPut : Trace → String → Option Err
  /-- The call `JSONReader(cookbook)`: the encoded body, or the error. -/
  JSONReader : CookbookPut → Except Err String
  /-- The call `client.magicRequestDecoder(method, path, body, v)`: the error, if any. -/
  magicRequestDecoder : Trace → String → String → Option String → Option Err
  /-- What `magicRequestDecoder` stores through `v` when `v` points to a
  `CookbookListResult`. -/
  decodedList : Trace → String → String → CookbookListResult

/-! ## Query paths -/

/-- The function `versionParams`. -/
def versionParams (path numVersions : String) : String :=
  let numVersions := if numVersions = "0" then "all" else numVersions
  if numVersions.length > 0 then
    path ++ "?num_versions=" ++ numVersions
  else
    path

/-- The method `CookbookService.ListAvailableVersions`: the decoded data, the
error and the trace. -/
def CookbookService.ListAvailableVersions (env : Env) (t : Trace) (numVersions : String) :
    (CookbookListResult × Option Err) × Trace :=
  let path := versionParams "cookbooks" numVersions
  let err := env.magicRequestDecoder t "GET" path none
  ((env.decodedList t "GET" path, err), t ++ [Event.magicRequest "GET" path none err.isNone])

/-- The method `CookbookService.List`. -/
def CookbookService.List (env : Env) (t : Trace) :
    (CookbookListResult × Option Err) × Trace :=
  CookbookService.ListAvailableVersions env t ""

/-! ## Text encodings of the Go standard library -/

/-- The UTF-8 bytes of one character. -/
def utf8Bytes (c : Char) : Bytes :=
  let n := c.toNat
  if n < 128 then [n]
  else if n < 2048 then [192 + n / 64, 128 + n % 64]
  else if n < 65536 then [224 + n / 4096, 128 + n / 64 % 64, 128 + n % 64]
  else [240 + n / 262144, 128 + n / 4096 % 64, 128 + n / 64 % 64, 128 + n % 64]

/-- The conversion `[]byte(s)`. -/
def stringBytes (s : String) : Bytes :=
  s.toList.flatMap utf8Bytes

/-- The table `reverseHexTable` of `encoding/hex`: the value of a hex digit,
`none` where the table holds `0xff`. -/
def fromHexChar (b : Nat) : Option Nat :=
  if 48 ≤ b ∧ b ≤ 57 then some (b - 48)
  else if 97 ≤ b ∧ b ≤ 102 then some (b - 97 + 10)
  else if 65 ≤ b ∧ b ≤ 70 then some (b - 65 + 10)
  else none

/-- The errors of `encoding/hex`. -/
inductive HexError where
  /-- The error `InvalidByteError(b)`. -/
  | invalidByte (b : Nat)
  /-- The error `ErrLength`. -/
  | errLength
deriving DecidableEq, Repr

/-- The function `hex.Decode`: the bytes decoded before the first error, and
the error. -/
def hexDecode : Bytes → Bytes × Option HexError
  | p :: q :: rest =>
    match fromHexChar p, fromHexChar q with
    | none, _ => ([], some (HexError.invalidByte p))
    | some _, none => ([], some (HexError.invalidByte q))
    | some a, some b => ((a * 16 + b) :: (hexDecode rest).1, (hexDecode rest).2)
  | [p] =>
    match fromHexChar p with
    | none => ([], some (HexError.invalidByte p))
    | some _ => ([], some HexError.errLength)
  | [] => ([], none)

/-- The function `hex.DecodeString`. -/
def hexDecodeString (s : String) : Bytes × Option HexError :=
  hexDecode (stringBytes s)

/-- One digit of the verb `%x`. -/
def hexDigit (n : Nat) : Char :=
  if n < 10 then Char.ofNat (48 + n) else Char.ofNat (87 + n)

/-- The call `fmt.Sprintf("%x", b)` on a byte slice: two lowercase digits per
byte. -/
def sprintfHex (b : Bytes) : String :=
  String.mk (b.flatMap fun x => [hexDigit (x / 16 % 16), hexDigit (x % 16)])

/-- The alphabet `encodeStd` of `encoding/base64`. -/
def encodeStd : List Char :=
  "ABCDEFGHIJKLMNOPQRSTUVWXYZabcdefghijklmnopqrstuvwxyz0123456789+/".toList

/-- The character of a six-bit value in `encodeStd`. -/
def base64Char (n : Nat) : Char :=
  encodeStd.getD n '/'

/-- The encoder of `base64.StdEncoding` on the bytes, three at a time, with
the padding `=`. -/
def base64Encode : Bytes → List Char
  | a :: b :: c :: rest =>
    base64Char (a / 4 % 64) :: base64Char (a % 4 * 16 + b / 16 % 16) ::
      base64Char (b % 16 * 4 + c / 64 % 4) :: base64Char (c % 64) :: base64Encode rest
  | [a, b] =>
    [base64Char (a / 4 % 64), base64Char (a % 4 * 16 + b / 16 % 16), base64Char (b % 16 * 4), '=']
  | [a] => [base64Char (a / 4 % 64), base64Char (a % 4 * 16), '=', '=']
  | [] => []

/-- The function `base64.StdEncoding.EncodeToString`. -/
def base64EncodeToString (b : Bytes) : String :=
  String.mk (base64Encode b)

/-- The six-bit value of a character of `encodeStd`. -/
def base64Val (c : Char) : Option Nat :=
  if encodeStd.indexOf c < 64 then some (encodeStd.indexOf c) else none

/-- The decoder of `base64.StdEncoding` on groups of four characters; only
the last group may end in one or two `=`. -/
def base64Decode : List Char → Option Bytes
  | [] => some []
  | c1 :: c2 :: c3 :: c4 :: rest =>
    match base64Val c1, base64Val c2 with
    | some v1, some v2 =>
      if c4 = '=' then
        if rest = [] then
          if c3 = '=' then some [v1 * 4 + v2 / 16]
          else
            match base64Val c3 with
            | some v3 => some [v1 * 4 + v2 / 16, v2 % 16 * 16 + v3 / 4]
            | none => none
        else none
      else
        match base64Val c3, base64Val c4, base64Decode rest with
        | some v3, some v4, some bs =>
          some ((v1 * 4 + v2 / 16) :: (v2 % 16 * 16 + v3 / 4) :: (v3 % 4 * 64 + v4) :: bs)
        | _, _, _ => none
    | _, _ => none
  | _ => none

/-- The function `base64.StdEncoding.DecodeString`; `\r` and `\n` are
skipped. -/
def base64DecodeString (s : String) : Option Bytes :=
  base64Decode (s.toList.filter fun c => c != '\r' && c != '\n')

/-! ## Upload -/

/-- The function `ComputeMd5`: the digest and the error. -/
def ComputeMd5 (env : Env) (filePath : String) : String × Option Err :=
  match env.osOpen filePath with
  | some err => (sprintfHex [], some err)
  | none =>
    match env.ioCopy filePath with
    | .error err => (sprintfHex [], some err)
    | .ok content => (sprintfHex (env.md5Sum content), none)

/-- A Go `map[string]string`. -/
abbrev GoMap := String → Option String

/-- The empty map `make(map[string]string)`. -/
def GoMap.empty : GoMap := fun _ => none

/-- The assignment `m[key] = value`. -/
def GoMap.set (m : GoMap) (key value : String) : GoMap :=
  fun k => if k = key then some value else m k

/-- The expression `m[key]`, the empty string where `key` is absent. -/
def GoMap.index (m : GoMap) (key : String) : String :=
  (m key).getD ""

/-- The callbacks of `filepath.Walk` in `Upload`: the list of the entries that
are not directories; `none` when `f.IsDir()` is called on a nil `f`. -/
def walkLoop : List (String × Option Bool) → List String → Option (List String)
  | [], fileList => some fileList
  | (_, none) :: _, _ => none
  | (path, some isDir) :: rest, fileList =>
    if !isDir then walkLoop rest (fileList ++ [path]) else walkLoop rest fileList

/-- The first loop of `Upload`: the digest of every file, in `fileChecksums`
and in `checksums`; the error of the first file whose digest fails. -/
def checksumLoop (env : Env) : List String → GoMap × List String →
    Except Err (GoMap × List String)
  | [], st => .ok st
  | file :: rest, (fileChecksums, checksums) =>
    match ComputeMd5 env file with
    | (_, some err) => .error err
    | (checksum, none) =>
      checksumLoop env rest (fileChecksums.set checksum file, checksums ++ [checksum])

/-- The value of the header `content-md5` for the key `respChecksumID`. -/
def contentMd5 (respChecksumID : String) : String :=
  base64EncodeToString (hexDecodeString respChecksumID).1

/-- The request of the second loop of `Upload` once its three headers are set;
`init` holds the headers `NewRequest` gave it. -/
def uploadRequest (init : Header) (url : String) (iofile : Option String)
    (respChecksumID : String) : Request :=
  { Method := "PUT"
    Url := url
    Body := iofile
    Header := headerSet (headerSet (headerSet init "content-type" "application/x-binary")
      "content-md5" (contentMd5 respChecksumID)) "accept" "application/json" }

/-- The handle `iofile` after `os.Open(path)`, whose error the second loop of
`Upload` overwrites unread: the open file, or `none` for the nil handle. -/
def openFile (env : Env) (path : String) : Option String :=
  match env.osOpen path with
  | none => some path
  | some _ => none

/-- The second loop of `Upload`, over the bindings of `postResp.Checksums`: the
error it returns with, `none` when it runs to its end, and the trace. -/
def uploadLoop (env : Env) (fileChecksums : GoMap) :
    Trace → List (String × SandboxItem) → Option Err × Trace
  | t, [] => (none, t)
  | t, (respChecksumID, item) :: rest =>
    if item.Upload then
      let iofile := openFile env (fileChecksums.index respChecksumID)
      match env.newRequest t "PUT" item.Url iofile with
      | .error err => (some err, t ++ [Event.newRequest "PUT" item.Url iofile false])
      | .ok init =>
        let req := uploadRequest init item.Url iofile respChecksumID
        let t1 := t ++ [Event.newRequest "PUT" item.Url iofile true]
        match env.doRequest t1 req with
        | some err => (some err, t1 ++ [Event.doRequest req false])
        | none => uploadLoop env fileChecksums (t1 ++ [Event.doRequest req true]) rest
    else
      uploadLoop env fileChecksums t rest

/-- The method `CookbookService.Put`: the error and the trace. -/
def CookbookService.Put (env : Env) (t : Trace) (name version : String)
    (cookbook : CookbookPut) : Option Err × Trace :=
  let url := "cookbooks/" ++ name ++ "/" ++ version
  let t0 := t ++ [Event.cookbookPut name version cookbook]
  match env.JSONReader cookbook with
  | .error err => (some err, t0)
  | .ok body =>
    match env.magicRequestDecoder t0 "PUT" url (some body) with
    | some err => (some err, t0 ++ [Event.magicRequest "PUT" url (some body) false])
    | none => (none, t0 ++ [Event.magicRequest "PUT" url (some body) true])

/-- The method `CookbookService.Upload`: how the run ends, and the trace. -/
def CookbookService.Upload (env : Env) (name version source : String)
    (cookbookDestriptionJson : CookbookPut) : Outcome × Trace :=
  match walkLoop (env.walk (env.join source name)) [] with
  | none => (Outcome.panicked, [])
  | some fileList =>
    match checksumLoop env fileList (GoMap.empty, []) with
    | .error err => (Outcome.returned (some err), [])
    | .ok (fileChecksums, checksums) =>
      match env.sandboxPost [] checksums with
      | .error _ => (Outcome.exited 1, [Event.sandboxPost checksums none, Event.exit 1])
      | .ok postResp =>
        match uploadLoop env fileChecksums [Event.sandboxPost checksums (some postResp)]
            postResp.Checksums with
        | (some err, t) => (Outcome.returned (some err), t)
        | (none, t) =>
          match env.sandboxPut t postResp.ID with
          | some _ => (Outcome.exited 1, t ++ [Event.sandboxPut postResp.ID false, Event.exit 1])
          | none =>
            -- the result of `c.Put` is dropped; the bare `return` gives back the
            -- `err` of the commit, which is nil here
            (Outcome.returned none,
              (CookbookService.Put env (t ++ [Event.sandboxPut postResp.ID true]) name version
                cookbookDestriptionJson).2)

/-! ## Predicates on events -/

/-- An upload request that ended in an error: `NewRequest` or `Do` with
`err != nil`. -/
def Event.isUploadFailure : Event → Bool
  | .newRequest _ _ _ false => true
  | .doRequest _ false => true
  | _ => false

/-- A call of `NewRequest` or `Do`. -/
def Event.isUpload : Event → Bool
  | .newRequest _ _ _ _ => true
  | .doRequest _ _ => true
  | _ => false

/-- The commit call `Sandboxes.Put`. -/
def Event.isCommit : Event → Bool
  | .sandboxPut _ _ => true
  | _ => false

/-- A commit call that ended in an error. -/
def Event.isCommitFailure : Event → Bool
  | .sandboxPut _ false => true
  | _ => false

/-- The publish call `CookbookService.Put`. -/
def Event.isPublish : Event → Bool
  | .cookbookPut _ _ _ => true
  | _ => false

/-- A call that ended with `err != nil`. -/
def Event.failed : Event → Bool
  | .sandboxPost _ none => true
  | .newRequest _ _ _ false => true
  | .doRequest _ false => true
  | .sandboxPut _ false => true
  | .magicRequest _ _ _ false => true
  | _ => false

/-- The requests passed to `client.Do`, oldest first. -/
def puts : Trace → List Request
  | [] => []
  | .doRequest req _ :: t => req :: puts t
  | _ :: t => puts t

/-- The digits `0`..`9` and `a`..`f`, the ones `%x` prints. -/
def isLowerHex (c : Char) : Bool :=
  (48 ≤ c.toNat && c.toNat ≤ 57) || (97 ≤ c.toNat && c.toNat ≤ 102)

/-! ## A concrete cookbook -/

/-- The MD5 sum on the two contents the examples hash: the sum of the one byte
`A` is `7fc56270e7a70fa81a5935b72eacbe29`, the sum of the one byte `B` is
`9d5ed678fe57bcca610140957afab571`. -/
def demoMd5 (b : Bytes) : Bytes :=
  if b = [65] then [127, 197, 98, 112, 231, 167, 15, 168, 26, 89, 53, 183, 46, 172, 190, 41]
  else if b = [66] then
    [157, 94, 214, 120, 254, 87, 188, 202, 97, 1, 64, 149, 122, 250, 181, 113]
  else List.replicate 16 0

/-- The digest of the content `A`. -/
def digestA : String := "7fc56270e7a70fa81a5935b72eacbe29"

/-- The digest of the content `B`. -/
def digestB : String := "9d5ed678fe57bcca610140957afab571"

/-- The cookbook `demo` under `src`, in walk order: `files/default/a.txt` and
`recipes/default.rb`, both with the content `A`.  A directory has no
content. -/
def twoFiles : List (String × Option Bytes) :=
  [("src/demo", none), ("src/demo/files", none), ("src/demo/files/default", none),
    ("src/demo/files/default/a.txt", some [65]), ("src/demo/recipes", none),
    ("src/demo/recipes/default.rb", some [65])]

/-- The cookbook `demo` with a third file, `metadata.rb`, with the content
`B`. -/
def threeFiles : List (String × Option Bytes) :=
  [("src/demo", none), ("src/demo/files", none), ("src/demo/files/default", none),
    ("src/demo/files/default/a.txt", some [65]), ("src/demo/metadata.rb", some [66]),
    ("src/demo/recipes", none), ("src/demo/recipes/default.rb", some [65])]

/-- A world whose file system holds `tree` under `src/demo`, whose sandbox
endpoint answers `resp`, and in which `doErr`, `commitErr` and `publishErr`
give the errors of the upload requests, of the commit and of the manifest
request.  A walk from another root finds nothing to stat. -/
def demoEnv (tree : List (String × Option Bytes)) (resp : SandboxPostResult)
    (doErr : Trace → Option Err) (commitErr publishErr : Option Err) : Env where
  join := fun a b => a ++ "/" ++ b
  walk := fun root =>
    if root = "src/demo" then tree.map fun e => (e.1, some e.2.isNone) else [(root, none)]
  osOpen := fun path =>
    match tree.lookup path with
    | some (some _) => none
    | _ => some "no such file or directory"
  ioCopy := fun path =>
    match tree.lookup path with
    | some (some content) => .ok content
    | _ => .error "read error"
  md5Sum := demoMd5
  sandboxPost := fun _ _ => .ok resp
  newRequest := fun _ _ _ _ => .ok []
  doRequest := fun t _ => doErr t
  sandboxPut := fun _ _ => commitErr
  JSONReader := fun _ => .ok "manifest"
  magicRequestDecoder := fun _ _ _ _ => publishErr
  decodedList := fun _ _ _ => []

/-- An answer of the sandbox endpoint that reports the content `A` missing. -/
def respMissing : SandboxPostResult :=
  { ID := "sandbox1", Checksums := [(digestA, { Url := "https://chef/upload/A", Upload := true })] }

/-- An answer of the sandbox endpoint that reports the contents `A` and `B`
missing. -/
def respTwo : SandboxPostResult :=
  { ID := "sandbox1",
    Checksums := [(digestA, { Url := "https://chef/upload/A", Upload := true }),
      (digestB, { Url := "https://chef/upload/B", Upload := true })] }

/-- An answer of the sandbox endpoint without any slot. -/
def respEmpty : SandboxPostResult :=
  { ID := "sandbox1", Checksums := [] }

/-- Upload requests that succeed. -/
def noErr : Trace → Option Err := fun _ => none

/-- Upload requests of which the first succeeds and the later ones fail. -/
def failAfterFirst : Trace → Option Err :=
  fun t => if (puts t).length = 0 then none else some "upload failed"

/-- A world in which every call succeeds. -/
def envOk : Env := demoEnv twoFiles respMissing noErr none none

/-- A world in which the second upload request fails. -/
def envUploadFails : Env := demoEnv threeFiles respTwo failAfterFirst none none

/-- A world in which the commit of the sandbox fails. -/
def envCommitFails : Env := demoEnv twoFiles respMissing noErr (some "commit rejected") none

/-- A world in which the manifest request fails. -/
def envPublishFails : Env := demoEnv twoFiles respMissing noErr none (some "publish rejected")

/-- A world whose sandbox endpoint answers without any slot. -/
def envNoSlots : Env := demoEnv twoFiles respEmpty noErr none none

/-- A world whose cookbook holds the contents `A` and `B` and whose sandbox
endpoint answers with a slot for `A` only. -/
def envPartialSlots : Env := demoEnv threeFiles respMissing noErr none none

/-- A metadata block. -/
def emptyMeta : CookbookMetaPut :=
  { Name := "demo", Version := "0.1.0", Description := "", LongDescription := "",
    Maintainer := "", MaintainerEmail := "", License := "", Platforms := [], Depends := [],
    Reccomends := [], Suggests := [], Conflicts := [], Provides := [], Replaces := [],
    Attributes := [], Groupings := [], Recipes := [] }

/-- The manifest of the cookbook `demo`: its two files, both with the digest of
`A`. -/
def demoCookbook : CookbookPut :=
  { CookbookName := "demo", Name := "demo-0.1.0", Version := "0.1.0", ChefType := "cookbook_version",
    Frozen := false, JsonClass := "Chef::CookbookVersion",
    Files := [{ Path := "files/default/a.txt", Name := "a.txt", Checksum := digestA,
                Specificity := "default" }],
    Templates := [], Attributes := [],
    Recipes := [{ Path := "recipes/default.rb", Name := "default.rb", Checksum := digestA,
                  Specificity := "default" }],
    Definitions := [], Libraries := [], Providers := [], Resources := [], RootFiles := [],
    Metadata := emptyMeta }

/-- A manifest with an entry whose checksum is the digest of no file of the
cookbook `demo`. -/
def strayCookbook : CookbookPut :=
  { demoCookbook with
    Templates := [{ Path := "templates/default/b.erb", Name := "b.erb",
                    Checksum := "ffffffffffffffffffffffffffffffff", Specificity := "default" }] }


/-! ## Query paths: the query string -/

theorem length_pos_of_ne_empty (n : String) (h : n ≠ "") : n.length > 0 := by
  rcases n with ⟨l⟩
  cases l with
  | nil => exact absurd rfl h
  | cons c cs => simp [String.length]

/-- C10: `versionParams p n` is `p` when `n` is empty, `p?num_versions=all`
when `n` is `0` and `p?num_versions=n` otherwise; `List()` requests the path
`cookbooks` and `ListAvailableVersions("0")` the path
`cookbooks?num_versions=all`, both with a GET and without a body. -/
theorem versionParams_spec (env : Env) (t : Trace) (p n : String) :
    versionParams p n =
        (if n = "" then p
         else if n = "0" then p ++ "?num_versions=all"
         else p ++ "?num_versions=" ++ n)
      ∧ (CookbookService.List env t).2 =
          t ++ [Event.magicRequest "GET" "cookbooks" none
                  (env.magicRequestDecoder t "GET" "cookbooks" none).isNone]
      ∧ (CookbookService.ListAvailableVersions env t "0").2 =
          t ++ [Event.magicRequest "GET" "cookbooks?num_versions=all" none
                  (env.magicRequestDecoder t "GET" "cookbooks?num_versions=all" none).isNone] := by
  refine ⟨?_, rfl, rfl⟩
  unfold versionParams
  by_cases h0 : n = "0"
  · subst h0
    have h3 : "all".length = 3 := by decide
    have hs : "?num_versions=" ++ "all" = "?num_versions=all" := by decide
    simp [h3, String.append_assoc, hs]
  · by_cases he : n = ""
    · subst he
      simp
    · have hl := length_pos_of_ne_empty n he
      simp [h0, he, hl]

/-! ## The shape of the traces -/

/-- The trace of `Put`: the entry into `Put`, then at most the manifest
request. -/
theorem Put_trace (env : Env) (t : Trace) (name version : String) (cookbook : CookbookPut) :
    ∃ s, (CookbookService.Put env t name version cookbook).2 =
        t ++ Event.cookbookPut name version cookbook :: s ∧
      (s = [] ∨ ∃ body ok, env.JSONReader cookbook = .ok body ∧ s = [Event.magicRequest "PUT"
        ("cookbooks/" ++ name ++ "/" ++ version) (some body) ok]) := by
  unfold CookbookService.Put
  cases hj : env.JSONReader cookbook with
  | error err => exact ⟨[], by simp, Or.inl rfl⟩
  | ok body =>
    cases hm : env.magicRequestDecoder (t ++ [Event.cookbookPut name version cookbook]) "PUT"
        ("cookbooks/" ++ name ++ "/" ++ version) (some body) with
    | some err => exact ⟨_, by simp [hm], Or.inr ⟨body, false, rfl, rfl⟩⟩
    | none => exact ⟨_, by simp [hm], Or.inr ⟨body, true, rfl, rfl⟩⟩

/-- A slot that is not flagged is skipped. -/
theorem uploadLoop_skip (env : Env) (m : GoMap) (t : Trace) (d : String) (item : SandboxItem)
    (rest : List (String × SandboxItem)) (hu : item.Upload = false) :
    uploadLoop env m t ((d, item) :: rest) = uploadLoop env m t rest := by
  simp [uploadLoop, hu]

/-- A flagged slot whose request cannot be built ends the loop. -/
theorem uploadLoop_newRequest_error (env : Env) (m : GoMap) (t : Trace) (d : String)
    (item : SandboxItem) (rest : List (String × SandboxItem)) (err : Err)
    (hu : item.Upload = true)
    (hn : env.newRequest t "PUT" item.Url (openFile env (m.index d)) = .error err) :
    uploadLoop env m t ((d, item) :: rest) =
      (some err, t ++ [Event.newRequest "PUT" item.Url (openFile env (m.index d)) false]) := by
  simp [uploadLoop, hu, hn]

/-- A flagged slot whose request fails ends the loop. -/
theorem uploadLoop_doRequest_error (env : Env) (m : GoMap) (t : Trace) (d : String)
    (item : SandboxItem) (rest : List (String × SandboxItem)) (init : Header) (err : Err)
    (hu : item.Upload = true)
    (hn : env.newRequest t "PUT" item.Url (openFile env (m.index d)) = .ok init)
    (hd : env.doRequest (t ++ [Event.newRequest "PUT" item.Url (openFile env (m.index d)) true])
      (uploadRequest init item.Url (openFile env (m.index d)) d) = some err) :
    uploadLoop env m t ((d, item) :: rest) =
      (some err, t ++ [Event.newRequest "PUT" item.Url (openFile env (m.index d)) true,
        Event.doRequest (uploadRequest init item.Url (openFile env (m.index d)) d) false]) := by
  simp [uploadLoop, hu, hn, hd]

/-- A flagged slot whose request succeeds: the loop goes on. -/
theorem uploadLoop_doRequest_ok (env : Env) (m : GoMap) (t : Trace) (d : String)
    (item : SandboxItem) (rest : List (String × SandboxItem)) (init : Header)
    (hu : item.Upload = true)
    (hn : env.newRequest t "PUT" item.Url (openFile env (m.index d)) = .ok init)
    (hd : env.doRequest (t ++ [Event.newRequest "PUT" item.Url (openFile env (m.index d)) true])
      (uploadRequest init item.Url (openFile env (m.index d)) d) = none) :
    uploadLoop env m t ((d, item) :: rest) =
      uploadLoop env m (t ++ [Event.newRequest "PUT" item.Url (openFile env (m.index d)) true,
        Event.doRequest (uploadRequest init item.Url (openFile env (m.index d)) d) true]) rest := by
  simp [uploadLoop, hu, hn, hd]

/-- The second loop extends the trace by upload calls only; when it runs to
its end none of them failed, and when it returns an error the last of them
failed. -/
theorem uploadLoop_trace (env : Env) (m : GoMap) :
    ∀ (es : List (String × SandboxItem)) (t : Trace),
      ∃ s, (uploadLoop env m t es).2 = t ++ s ∧ (∀ e ∈ s, e.isUpload = true) ∧
        ((uploadLoop env m t es).1 = none → ∀ e ∈ s, e.failed = false) ∧
        (∀ err, (uploadLoop env m t es).1 = some err →
          ∃ s0 f, s = s0 ++ [f] ∧ f.isUploadFailure = true) := by
  intro es
  induction es with
  | nil => intro t; exact ⟨[], by simp [uploadLoop]⟩
  | cons e rest ih =>
    intro t
    obtain ⟨d, item⟩ := e
    cases hu : item.Upload with
    | false =>
      rw [uploadLoop_skip env m t d item rest hu]
      exact ih t
    | true =>
      cases hn : env.newRequest t "PUT" item.Url (openFile env (m.index d)) with
      | error err =>
        rw [uploadLoop_newRequest_error env m t d item rest err hu hn]
        refine ⟨[Event.newRequest "PUT" item.Url (openFile env (m.index d)) false], rfl, ?_, ?_, ?_⟩
        · intro e he
          simp at he
          subst he
          rfl
        · intro h
          simp at h
        · intro _ _
          exact ⟨[], _, rfl, rfl⟩
      | ok init =>
        cases hd : env.doRequest
            (t ++ [Event.newRequest "PUT" item.Url (openFile env (m.index d)) true])
            (uploadRequest init item.Url (openFile env (m.index d)) d) with
        | some err =>
          rw [uploadLoop_doRequest_error env m t d item rest init err hu hn hd]
          refine ⟨[Event.newRequest "PUT" item.Url (openFile env (m.index d)) true,
            Event.doRequest (uploadRequest init item.Url (openFile env (m.index d)) d) false],
            rfl, ?_, ?_, ?_⟩
          · intro e he
            simp at he
            rcases he with he | he
            · subst he; rfl
            · subst he; rfl
          · intro h
            simp at h
          · intro _ _
            exact ⟨[Event.newRequest "PUT" item.Url (openFile env (m.index d)) true], _, rfl, rfl⟩
        | none =>
          rw [uploadLoop_doRequest_ok env m t d item rest init hu hn hd]
          obtain ⟨s, hs, h1, h2, h3⟩ := ih
            (t ++ [Event.newRequest "PUT" item.Url (openFile env (m.index d)) true,
              Event.doRequest (uploadRequest init item.Url (openFile env (m.index d)) d) true])
          refine ⟨[Event.newRequest "PUT" item.Url (openFile env (m.index d)) true,
            Event.doRequest (uploadRequest init item.Url (openFile env (m.index d)) d) true] ++ s,
            ?_, ?_, ?_, ?_⟩
          · rw [hs, List.append_assoc]
          · intro e he
            simp at he
            rcases he with he | he | he
            · subst he; rfl
            · subst he; rfl
            · exact h1 e he
          · intro hnone e he
            simp at he
            rcases he with he | he | he
            · subst he; rfl
            · subst he; rfl
            · exact h2 hnone e he
          · intro err herr
            obtain ⟨s0, f, hs0, hf⟩ := h3 err herr
            exact ⟨_ ++ s0, f, by rw [hs0, List.append_assoc], hf⟩

/-- The runs of `Upload`, phase by phase. -/
theorem Upload_cases (env : Env) (name version source : String) (cb : CookbookPut) :
    (walkLoop (env.walk (env.join source name)) [] = none ∧
        CookbookService.Upload env name version source cb = (Outcome.panicked, [])) ∨
    ∃ fileList, walkLoop (env.walk (env.join source name)) [] = some fileList ∧
      ((∃ err, checksumLoop env fileList (GoMap.empty, []) = .error err ∧
          CookbookService.Upload env name version source cb =
            (Outcome.returned (some err), [])) ∨
       ∃ m sums, checksumLoop env fileList (GoMap.empty, []) = .ok (m, sums) ∧
        ((∃ err, env.sandboxPost [] sums = .error err ∧
            CookbookService.Upload env name version source cb =
              (Outcome.exited 1, [Event.sandboxPost sums none, Event.exit 1])) ∨
         ∃ resp, env.sandboxPost [] sums = .ok resp ∧
          ((∃ err, (uploadLoop env m [Event.sandboxPost sums (some resp)] resp.Checksums).1
                = some err ∧
              CookbookService.Upload env name version source cb =
                (Outcome.returned (some err),
                  (uploadLoop env m [Event.sandboxPost sums (some resp)] resp.Checksums).2)) ∨
           ((uploadLoop env m [Event.sandboxPost sums (some resp)] resp.Checksums).1 = none ∧
            ((∃ err, env.sandboxPut
                  (uploadLoop env m [Event.sandboxPost sums (some resp)] resp.Checksums).2
                  resp.ID = some err ∧
                CookbookService.Upload env name version source cb =
                  (Outcome.exited 1,
                    (uploadLoop env m [Event.sandboxPost sums (some resp)] resp.Checksums).2 ++
                      [Event.sandboxPut resp.ID false, Event.exit 1])) ∨
             (env.sandboxPut
                  (uploadLoop env m [Event.sandboxPost sums (some resp)] resp.Checksums).2
                  resp.ID = none ∧
                CookbookService.Upload env name version source cb =
                  (Outcome.returned none,
                    (CookbookService.Put env
                      ((uploadLoop env m [Event.sandboxPost sums (some resp)]
                        resp.Checksums).2 ++ [Event.sandboxPut resp.ID true])
                      name version cb).2))))))) := by
  cases hw : walkLoop (env.walk (env.join source name)) [] with
  | none => exact Or.inl ⟨rfl, by simp [CookbookService.Upload, hw]⟩
  | some fileList =>
    refine Or.inr ⟨fileList, rfl, ?_⟩
    cases hc : checksumLoop env fileList (GoMap.empty, []) with
    | error err => exact Or.inl ⟨err, rfl, by simp [CookbookService.Upload, hw, hc]⟩
    | ok st =>
      obtain ⟨m, sums⟩ := st
      refine Or.inr ⟨m, sums, rfl, ?_⟩
      cases hp : env.sandboxPost [] sums with
      | error err => exact Or.inl ⟨err, rfl, by simp [CookbookService.Upload, hw, hc, hp]⟩
      | ok resp =>
        refine Or.inr ⟨resp, rfl, ?_⟩
        rcases hl : uploadLoop env m [Event.sandboxPost sums (some resp)] resp.Checksums
          with ⟨r, t⟩
        cases r with
        | some err =>
          exact Or.inl ⟨err, rfl, by simp [CookbookService.Upload, hw, hc, hp, hl]⟩
        | none =>
          refine Or.inr ⟨rfl, ?_⟩
          cases hs : env.sandboxPut t resp.ID with
          | some err =>
            exact Or.inl ⟨err, rfl, by simp [CookbookService.Upload, hw, hc, hp, hl, hs]⟩
          | none =>
            exact Or.inr ⟨rfl, by simp [CookbookService.Upload, hw, hc, hp, hl, hs]⟩

theorem Event.failed_of_isUploadFailure (e : Event) (h : e.isUploadFailure = true) :
    e.failed = true := by
  cases e <;> simp_all [Event.isUploadFailure, Event.failed]
  all_goals (rename_i ok; cases ok <;> simp_all [Event.isUploadFailure, Event.failed])

theorem Event.not_commit_publish_of_isUpload (e : Event) (h : e.isUpload = true) :
    e.isCommit = false ∧ e.isPublish = false := by
  cases e <;> simp_all [Event.isUpload, Event.isCommit, Event.isPublish]

/-- The trace of the second loop of `Upload`, started after the negotiation. -/
theorem uploadLoop_after_post (env : Env) (m : GoMap) (sums : List String)
    (resp : SandboxPostResult) :
    ∃ s, (uploadLoop env m [Event.sandboxPost sums (some resp)] resp.Checksums).2 =
        Event.sandboxPost sums (some resp) :: s ∧ (∀ e ∈ s, e.isUpload = true) ∧
      ((uploadLoop env m [Event.sandboxPost sums (some resp)] resp.Checksums).1 = none →
        ∀ e ∈ s, e.failed = false) := by
  obtain ⟨s, hs, h1, h2, _⟩ :=
    uploadLoop_trace env m resp.Checksums [Event.sandboxPost sums (some resp)]
  exact ⟨s, by simpa using hs, h1, h2⟩

/-- C1: when an upload request fails (`NewRequest` or `Do` returns an error),
`Upload` returns a non-nil error and the run holds neither a commit call
(`Sandboxes.Put`) nor a publish call (`CookbookService.Put`), whatever the
uploads before the failing one did. -/
theorem Upload_upload_failure_aborts (env : Env) (name version source : String)
    (cb : CookbookPut)
    (h : ∃ e ∈ (CookbookService.Upload env name version source cb).2,
      e.isUploadFailure = true) :
    (∃ err, (CookbookService.Upload env name version source cb).1 =
        Outcome.returned (some err)) ∧
      ∀ e ∈ (CookbookService.Upload env name version source cb).2,
        e.isCommit = false ∧ e.isPublish = false := by
  obtain ⟨f, hf, hfail⟩ := h
  rcases Upload_cases env name version source cb with ⟨_, hr⟩ | ⟨fileList, _, hcase⟩
  · rw [hr] at hf; simp at hf
  rcases hcase with ⟨err, _, hr⟩ | ⟨m, sums, _, hcase⟩
  · rw [hr] at hf; simp at hf
  rcases hcase with ⟨err, _, hr⟩ | ⟨resp, _, hcase⟩
  · rw [hr] at hf
    simp at hf
    rcases hf with hf | hf <;> subst hf <;> simp [Event.isUploadFailure] at hfail
  obtain ⟨s, hs, hup, hok⟩ := uploadLoop_after_post env m sums resp
  rcases hcase with ⟨err, _, hr⟩ | ⟨hnone, hcase⟩
  · rw [hr]
    refine ⟨⟨err, rfl⟩, ?_⟩
    intro e he
    simp only [hs, List.mem_cons] at he
    rcases he with he | he
    · subst he; exact ⟨rfl, rfl⟩
    · exact Event.not_commit_publish_of_isUpload e (hup e he)
  · have hclean : ∀ e ∈ (uploadLoop env m [Event.sandboxPost sums (some resp)]
        resp.Checksums).2, e.isUploadFailure = false := by
      intro e he
      simp only [hs, List.mem_cons] at he
      rcases he with he | he
      · subst he; rfl
      · have := hok hnone e he
        cases hx : e.isUploadFailure with
        | false => rfl
        | true => rw [Event.failed_of_isUploadFailure e hx] at this; cases this
    exfalso
    rcases hcase with ⟨err, _, hr⟩ | ⟨_, hr⟩
    · rw [hr] at hf
      simp only [List.mem_append, List.mem_cons, List.mem_singleton, List.not_mem_nil,
        or_false] at hf
      rcases hf with hf | hf | hf
      · rw [hclean f hf] at hfail; cases hfail
      · subst hf; simp [Event.isUploadFailure] at hfail
      · subst hf; simp [Event.isUploadFailure] at hfail
    · obtain ⟨s2, hs2, hs2shape⟩ := Put_trace env
        ((uploadLoop env m [Event.sandboxPost sums (some resp)] resp.Checksums).2 ++
          [Event.sandboxPut resp.ID true]) name version cb
      rw [hr] at hf
      simp only [hs2, List.mem_append, List.mem_cons, List.mem_singleton, List.not_mem_nil,
        or_false] at hf
      rcases hf with (hf | hf) | hf | hf
      · rw [hclean f hf] at hfail; cases hfail
      · subst hf; simp [Event.isUploadFailure] at hfail
      · subst hf; simp [Event.isUploadFailure] at hfail
      · rcases hs2shape with h0 | ⟨body, ok, _, h0⟩
        · subst h0; simp at hf
        · subst h0
          simp at hf
          subst hf
          simp [Event.isUploadFailure] at hfail

/-- An element that satisfies `p` sits at one place only in a list whose other
elements do not satisfy `p`. -/
theorem split_unique {α : Type} (p : α → Bool) :
    ∀ (a pre : List α) (x y : α) (b post : List α),
      (∀ e ∈ a, p e = false) → (∀ e ∈ b, p e = false) → p y = true →
      a ++ x :: b = pre ++ y :: post → pre = a := by
  intro a
  induction a with
  | nil =>
    intro pre x y b post _ hb hy h
    cases pre with
    | nil => rfl
    | cons z pre' =>
      exfalso
      simp only [List.nil_append, List.cons_append, List.cons.injEq] at h
      have hmem : y ∈ b := by rw [h.2]; simp
      rw [hb y hmem] at hy
      cases hy
  | cons z a ih =>
    intro pre x y b post ha hb hy h
    cases pre with
    | nil =>
      exfalso
      simp only [List.nil_append, List.cons_append, List.cons.injEq] at h
      have hz := ha z (by simp)
      rw [h.1, hy] at hz
      cases hz
    | cons w pre' =>
      simp only [List.cons_append, List.cons.injEq] at h
      rw [h.1, ih pre' x y b post (fun e he => ha e (by simp [he])) hb hy h.2]

/-- Before the commit the trace holds the negotiation and upload calls only. -/
theorem uploadLoop_no_commit_publish (env : Env) (m : GoMap) (sums : List String)
    (resp : SandboxPostResult) :
    ∀ e ∈ (uploadLoop env m [Event.sandboxPost sums (some resp)] resp.Checksums).2,
      e.isCommit = false ∧ e.isPublish = false := by
  obtain ⟨s, hs, hup, _⟩ := uploadLoop_after_post env m sums resp
  intro e he
  simp only [hs, List.mem_cons] at he
  rcases he with he | he
  · subst he; exact ⟨rfl, rfl⟩
  · exact Event.not_commit_publish_of_isUpload e (hup e he)

/-- C2: when the commit call (`Sandboxes.Put`) fails, the run holds no publish
call (`CookbookService.Put`); and in every run a publish call comes after the
successful negotiation and after a successful commit call for the sandbox
identifier that the negotiation returned. -/
theorem Upload_publish_after_commit (env : Env) (name version source : String)
    (cb : CookbookPut) :
    ((∃ id, Event.sandboxPut id false ∈ (CookbookService.Upload env name version source cb).2) →
        ∀ e ∈ (CookbookService.Upload env name version source cb).2, e.isPublish = false) ∧
      ∀ pre post n v c,
        (CookbookService.Upload env name version source cb).2 =
          pre ++ Event.cookbookPut n v c :: post →
        ∃ sums resp, env.sandboxPost [] sums = .ok resp ∧
          Event.sandboxPost sums (some resp) ∈ pre ∧ Event.sandboxPut resp.ID true ∈ pre := by
  rcases Upload_cases env name version source cb with ⟨_, hr⟩ | ⟨fileList, _, hcase⟩
  · rw [hr]
    refine ⟨fun _ e he => by simp at he, fun pre post n v c h => ?_⟩
    simp at h
  rcases hcase with ⟨err, _, hr⟩ | ⟨m, sums, _, hcase⟩
  · rw [hr]
    refine ⟨fun _ e he => by simp at he, fun pre post n v c h => ?_⟩
    simp at h
  rcases hcase with ⟨err, _, hr⟩ | ⟨resp, hpost, hcase⟩
  · rw [hr]
    refine ⟨fun _ e he => ?_, fun pre post n v c h => ?_⟩
    · simp at he
      rcases he with he | he <;> subst he <;> rfl
    · have hmem : Event.cookbookPut n v c ∈
          [Event.sandboxPost sums none, Event.exit 1] := by
        simp only [] at h
        rw [h]; simp
      simp at hmem
  have hloop := uploadLoop_no_commit_publish env m sums resp
  obtain ⟨s, hs, _, _⟩ := uploadLoop_after_post env m sums resp
  rcases hcase with ⟨err, _, hr⟩ | ⟨hnone, hcase⟩
  · rw [hr]
    refine ⟨fun _ e he => (hloop e he).2, fun pre post n v c h => ?_⟩
    have hmem : Event.cookbookPut n v c ∈
        (uploadLoop env m [Event.sandboxPost sums (some resp)] resp.Checksums).2 := by
      simp only [] at h
      rw [h]; simp
    have := (hloop _ hmem).2
    simp [Event.isPublish] at this
  rcases hcase with ⟨err, _, hr⟩ | ⟨_, hr⟩
  · rw [hr]
    have hall : ∀ e ∈ (uploadLoop env m [Event.sandboxPost sums (some resp)]
        resp.Checksums).2 ++ [Event.sandboxPut resp.ID false, Event.exit 1],
        e.isPublish = false := by
      intro e he
      simp only [List.mem_append, List.mem_cons, List.mem_singleton, List.not_mem_nil,
        or_false] at he
      rcases he with he | he | he
      · exact (hloop e he).2
      · subst he; rfl
      · subst he; rfl
    refine ⟨fun _ => hall, fun pre post n v c h => ?_⟩
    have hmem : Event.cookbookPut n v c ∈
        (uploadLoop env m [Event.sandboxPost sums (some resp)] resp.Checksums).2 ++
          [Event.sandboxPut resp.ID false, Event.exit 1] := by
      simp only [] at h
      rw [h]; simp
    have := hall _ hmem
    simp [Event.isPublish] at this
  · obtain ⟨s2, hs2, hs2shape⟩ := Put_trace env
      ((uploadLoop env m [Event.sandboxPost sums (some resp)] resp.Checksums).2 ++
        [Event.sandboxPut resp.ID true]) name version cb
    rw [hr]
    simp only [hs2]
    have hpre : ∀ e ∈ (uploadLoop env m [Event.sandboxPost sums (some resp)]
        resp.Checksums).2 ++ [Event.sandboxPut resp.ID true],
        e.isPublish = false ∧ (∀ id, e ≠ Event.sandboxPut id false) := by
      intro e he
      simp only [List.mem_append, List.mem_singleton] at he
      rcases he with he | he
      · refine ⟨(hloop e he).2, fun id hid => ?_⟩
        have := (hloop e he).1
        rw [hid] at this
        simp [Event.isCommit] at this
      · subst he
        exact ⟨rfl, fun id hid => by simp at hid⟩
    have hs2p : ∀ e ∈ s2, e.isPublish = false ∧ (∀ id, e ≠ Event.sandboxPut id false) := by
      intro e he
      rcases hs2shape with h0 | ⟨body, ok, _, h0⟩
      · subst h0; simp at he
      · subst h0
        simp at he
        subst he
        exact ⟨rfl, fun id hid => by simp at hid⟩
    refine ⟨?_, fun pre post n v c h => ?_⟩
    · rintro ⟨id, hid⟩
      exfalso
      simp only [List.mem_append, List.mem_cons] at hid
      rcases hid with hid | hid | hid
      · exact (hpre _ (by simpa using hid)).2 id rfl
      · simp at hid
      · exact (hs2p _ hid).2 id rfl
    · have hp := split_unique Event.isPublish _ pre _ (Event.cookbookPut n v c) s2 post
        (fun e he => (hpre e he).1) (fun e he => (hs2p e he).1) rfl h
      refine ⟨sums, resp, hpost, ?_, ?_⟩
      · rw [hp, hs]; simp
      · rw [hp]; simp

/-! ## The checksum index -/

/-- The walk keeps the entries that are not directories, in walk order. -/
theorem walkLoop_some :
    ∀ (entries : List (String × Option Bool)) (acc fileList : List String),
      walkLoop entries acc = some fileList →
      fileList = acc ++ (entries.filter fun e => e.2 == some false).map Prod.fst := by
  intro entries
  induction entries with
  | nil =>
    intro acc fileList h
    simp [walkLoop] at h
    simp [h]
  | cons e rest ih =>
    intro acc fileList h
    obtain ⟨path, f⟩ := e
    cases f with
    | none => simp [walkLoop] at h
    | some isDir =>
      cases isDir with
      | true =>
        simp [walkLoop] at h
        simpa using ih acc fileList h
      | false =>
        simp [walkLoop] at h
        simpa using ih (acc ++ [path]) fileList h

/-- The map that the first loop of `Upload` builds from `m0`. -/
theorem checksumLoop_ok (env : Env) :
    ∀ (files : List String) (m0 : GoMap) (s0 : List String) (m : GoMap) (sums : List String),
      checksumLoop env files (m0, s0) = .ok (m, sums) →
      sums = s0 ++ files.map (fun f => (ComputeMd5 env f).1) ∧
        (∀ f ∈ files, (ComputeMd5 env f).2 = none) ∧
        m = files.foldl (fun acc f => acc.set (ComputeMd5 env f).1 f) m0 := by
  intro files
  induction files with
  | nil =>
    intro m0 s0 m sums h
    simp [checksumLoop] at h
    simp [h.1, h.2]
  | cons file rest ih =>
    intro m0 s0 m sums h
    rcases hc : ComputeMd5 env file with ⟨d, e⟩
    cases e with
    | some err => simp [checksumLoop, hc] at h
    | none =>
      simp only [checksumLoop, hc] at h
      obtain ⟨h1, h2, h3⟩ := ih _ _ _ _ h
      refine ⟨?_, ?_, ?_⟩
      · simp [h1, hc]
      · intro f hf
        simp only [List.mem_cons] at hf
        rcases hf with hf | hf
        · subst hf; simp [hc]
        · exact h2 f hf
      · simp [h3, hc]

/-- What a map holds after the assignments `m[digest f] = f` over `files`: the
last file with the digest, or what it held before. -/
theorem foldl_set_lookup (digest : String → String) :
    ∀ (files : List String) (m0 : GoMap) (d p : String),
      (files.foldl (fun acc f => acc.set (digest f) f) m0) d = some p →
      (m0 d = some p ∧ ∀ q ∈ files, digest q ≠ d) ∨
        ∃ pre post, files = pre ++ p :: post ∧ digest p = d ∧ ∀ q ∈ post, digest q ≠ d := by
  intro files
  induction files with
  | nil =>
    intro m0 d p h
    exact Or.inl ⟨h, by simp⟩
  | cons a rest ih =>
    intro m0 d p h
    simp only [List.foldl_cons] at h
    rcases ih _ d p h with ⟨hm, hrest⟩ | ⟨pre, post, hsplit, hd, hpost⟩
    · by_cases hda : d = digest a
      · simp [GoMap.set, hda] at hm
        subst hm
        exact Or.inr ⟨[], rest, rfl, hda.symm, hrest⟩
      · simp [GoMap.set, hda] at hm
        refine Or.inl ⟨hm, ?_⟩
        intro q hq
        simp only [List.mem_cons] at hq
        rcases hq with hq | hq
        · subst hq; exact fun h => hda h.symm
        · exact hrest q hq
    · exact Or.inr ⟨a :: pre, post, by simp [hsplit], hd, hpost⟩

/-- After the assignments `m[digest f] = f` over `files` the map holds an
entry for the digest of every file. -/
theorem foldl_set_mem (digest : String → String) :
    ∀ (files : List String) (m0 : GoMap) (d : String),
      ((m0 d).isSome ∨ ∃ f ∈ files, digest f = d) →
      ((files.foldl (fun acc f => acc.set (digest f) f) m0) d).isSome := by
  intro files
  induction files with
  | nil =>
    intro m0 d h
    rcases h with h | ⟨f, hf, _⟩
    · exact h
    · simp at hf
  | cons a rest ih =>
    intro m0 d h
    simp only [List.foldl_cons]
    apply ih
    by_cases hda : d = digest a
    · left; simp [GoMap.set, hda]
    · rcases h with h | ⟨f, hf, hfd⟩
      · left; simpa [GoMap.set, hda] using h
      · simp only [List.mem_cons] at hf
        rcases hf with hf | hf
        · subst hf; exact absurd hfd.symm hda
        · right; exact ⟨f, hf, hfd⟩

/-- A digest that `ComputeMd5` returns without error is the `%x` rendering of
the MD5 sum of the bytes of a file that opens. -/
theorem ComputeMd5_ok (env : Env) (p : String) (h : (ComputeMd5 env p).2 = none) :
    env.osOpen p = none ∧
      ∃ content, env.ioCopy p = .ok content ∧
        (ComputeMd5 env p).1 = sprintfHex (env.md5Sum content) := by
  unfold ComputeMd5 at h ⊢
  cases ho : env.osOpen p with
  | some err => simp [ho] at h
  | none =>
    cases hc : env.ioCopy p with
    | error err => simp [ho, hc] at h
    | ok content => exact ⟨rfl, content, rfl, by simp⟩

/-- C9: when every digest computes, the digest-to-path mapping that the first
loop of `Upload` builds has an entry for the digest of every walked file; the
path stored under a digest is a walked file whose own digest is that digest,
the last such file in walk order; so the file the second loop opens for a
digest of the mapping is that path, it opens, and the digest is the `%x`
rendering of the MD5 sum of its bytes. -/
theorem checksumLoop_representative (env : Env) (files : List String) (m : GoMap)
    (sums : List String) (h : checksumLoop env files (GoMap.empty, []) = .ok (m, sums)) :
    sums = files.map (fun f => (ComputeMd5 env f).1) ∧
      (∀ f ∈ files, ∃ p, m (ComputeMd5 env f).1 = some p) ∧
      (∀ d p, m d = some p →
        (∃ pre post, files = pre ++ p :: post ∧ ComputeMd5 env p = (d, none) ∧
          ∀ q ∈ post, (ComputeMd5 env q).1 ≠ d) ∧
        openFile env (m.index d) = some p ∧
        ∃ content, env.ioCopy p = .ok content ∧ sprintfHex (env.md5Sum content) = d) := by
  obtain ⟨h1, h2, h3⟩ := checksumLoop_ok env files _ _ _ _ h
  refine ⟨by simpa using h1, ?_, ?_⟩
  · intro f hf
    have := foldl_set_mem (fun f => (ComputeMd5 env f).1) files GoMap.empty
      (ComputeMd5 env f).1 (Or.inr ⟨f, hf, rfl⟩)
    rw [← h3] at this
    exact Option.isSome_iff_exists.mp this
  · intro d p hm
    rw [h3] at hm
    rcases foldl_set_lookup (fun f => (ComputeMd5 env f).1) files GoMap.empty d p hm with
      ⟨h0, _⟩ | ⟨pre, post, hsplit, hd, hpost⟩
    · simp [GoMap.empty] at h0
    · have hp : p ∈ files := by rw [hsplit]; simp
      have hnone := h2 p hp
      obtain ⟨hopen, content, hcopy, hdig⟩ := ComputeMd5_ok env p hnone
      refine ⟨⟨pre, post, hsplit, ?_, hpost⟩, ?_, content, hcopy, ?_⟩
      · exact Prod.ext hd hnone
      · rw [← h3] at hm
        simp [GoMap.index, hm, openFile, hopen]
      · rw [← hdig]; exact hd

/-! ## Runs that reach the negotiation -/

/-- The trace of a run holds one negotiation call at most, its first event. -/
theorem mem_trace_sandboxPost (sums sums0 : List String) (r r0 : Option SandboxPostResult)
    (s : Trace) (hs : ∀ e ∈ s, ∀ c x, e ≠ Event.sandboxPost c x)
    (h : Event.sandboxPost sums r ∈ Event.sandboxPost sums0 r0 :: s) :
    sums = sums0 ∧ r = r0 := by
  simp only [List.mem_cons] at h
  rcases h with h | h
  · simpa using h
  · exact absurd rfl (hs _ h sums r)

theorem Event.ne_sandboxPost_of_isUpload (e : Event) (h : e.isUpload = true) :
    ∀ c x, e ≠ Event.sandboxPost c x := by
  intro c x hx
  subst hx
  simp [Event.isUpload] at h

/-- The runs of `Upload` whose trace holds a negotiation call. -/
theorem Upload_of_sandboxPost (env : Env) (name version source : String) (cb : CookbookPut)
    (sums : List String) (r : Option SandboxPostResult)
    (h : Event.sandboxPost sums r ∈ (CookbookService.Upload env name version source cb).2) :
    ∃ fileList m, walkLoop (env.walk (env.join source name)) [] = some fileList ∧
      checksumLoop env fileList (GoMap.empty, []) = .ok (m, sums) ∧
      ((r = none ∧ ∃ err, env.sandboxPost [] sums = .error err) ∨
       ∃ resp, r = some resp ∧ env.sandboxPost [] sums = .ok resp ∧
        ((∃ err, (uploadLoop env m [Event.sandboxPost sums (some resp)] resp.Checksums).1
              = some err ∧
            CookbookService.Upload env name version source cb =
              (Outcome.returned (some err),
                (uploadLoop env m [Event.sandboxPost sums (some resp)] resp.Checksums).2)) ∨
         ((uploadLoop env m [Event.sandboxPost sums (some resp)] resp.Checksums).1 = none ∧
          ((∃ err, env.sandboxPut
                (uploadLoop env m [Event.sandboxPost sums (some resp)] resp.Checksums).2
                resp.ID = some err ∧
              CookbookService.Upload env name version source cb =
                (Outcome.exited 1,
                  (uploadLoop env m [Event.sandboxPost sums (some resp)] resp.Checksums).2 ++
                    [Event.sandboxPut resp.ID false, Event.exit 1])) ∨
           (env.sandboxPut
                (uploadLoop env m [Event.sandboxPost sums (some resp)] resp.Checksums).2
                resp.ID = none ∧
              CookbookService.Upload env name version source cb =
                (Outcome.returned none,
                  (CookbookService.Put env
                    ((uploadLoop env m [Event.sandboxPost sums (some resp)]
                      resp.Checksums).2 ++ [Event.sandboxPut resp.ID true])
                    name version cb).2)))))) := by
  rcases Upload_cases env name version source cb with ⟨_, hr⟩ | ⟨fileList, hw, hcase⟩
  · rw [hr] at h; simp at h
  rcases hcase with ⟨err, _, hr⟩ | ⟨m, sums0, hc, hcase⟩
  · rw [hr] at h; simp at h
  rcases hcase with ⟨err, hp, hr⟩ | ⟨resp, hp, hcase⟩
  · rw [hr] at h
    obtain ⟨h1, h2⟩ := mem_trace_sandboxPost sums sums0 r none [Event.exit 1]
      (by intro e he c x; simp at he; subst he; simp) h
    subst h1
    exact ⟨fileList, m, hw, hc, Or.inl ⟨h2, err, hp⟩⟩
  obtain ⟨s, hs, hup, _⟩ := uploadLoop_after_post env m sums0 resp
  have key : ∀ tail : Trace, (∀ e ∈ tail, ∀ c x, e ≠ Event.sandboxPost c x) →
      Event.sandboxPost sums r ∈
        (uploadLoop env m [Event.sandboxPost sums0 (some resp)] resp.Checksums).2 ++ tail →
      sums = sums0 ∧ r = some resp := by
    intro tail htail hmem
    rw [hs, List.cons_append] at hmem
    refine mem_trace_sandboxPost sums sums0 r (some resp) (s ++ tail) ?_ hmem
    intro e he
    simp only [List.mem_append] at he
    rcases he with he | he
    · exact Event.ne_sandboxPost_of_isUpload e (hup e he)
    · exact htail e he
  have hfin : sums = sums0 ∧ r = some resp := by
    rcases hcase with ⟨err, _, hr⟩ | ⟨_, ⟨err, _, hr⟩ | ⟨_, hr⟩⟩
    · rw [hr] at h
      exact key [] (by simp) (by simpa using h)
    · rw [hr] at h
      refine key _ ?_ h
      intro e he c x
      simp at he
      rcases he with he | he <;> subst he <;> simp
    · obtain ⟨s2, hs2, hs2shape⟩ := Put_trace env
        ((uploadLoop env m [Event.sandboxPost sums0 (some resp)] resp.Checksums).2 ++
          [Event.sandboxPut resp.ID true]) name version cb
      rw [hr] at h
      simp only [hs2, List.append_assoc] at h
      refine key _ ?_ h
      intro e he c x
      simp only [List.singleton_append, List.mem_cons] at he
      rcases he with he | he | he
      · subst he; simp
      · subst he; simp
      · rcases hs2shape with h0 | ⟨body, ok, _, h0⟩
        · subst h0; simp at he
        · subst h0
          simp at he
          subst he
          simp
  obtain ⟨h1, h2⟩ := hfin
  subst h1
  exact ⟨fileList, m, hw, hc, Or.inr ⟨resp, h2, hp, hcase⟩⟩

/-- C3, amended: the checksum list passed to `Sandboxes.Post` holds the digest
of every walked file that is not a directory, one entry per file in walk
order, so that a digest shared by several files is there once per file. -/
theorem Upload_submits_digest_per_file (env : Env) (name version source : String)
    (cb : CookbookPut) (sums : List String) (r : Option SandboxPostResult)
    (h : Event.sandboxPost sums r ∈ (CookbookService.Upload env name version source cb).2) :
    sums = (((env.walk (env.join source name)).filter fun e => e.2 == some false).map
        Prod.fst).map (fun f => (ComputeMd5 env f).1) ∧
      ∀ f ∈ ((env.walk (env.join source name)).filter fun e => e.2 == some false).map
        Prod.fst, (ComputeMd5 env f).2 = none := by
  obtain ⟨fileList, m, hw, hc, _⟩ := Upload_of_sandboxPost env name version source cb sums r h
  have hfl := walkLoop_some _ _ _ hw
  simp only [List.nil_append] at hfl
  obtain ⟨h1, h2, _⟩ := checksumLoop_ok env fileList _ _ _ _ hc
  rw [← hfl]
  exact ⟨by simpa using h1, h2⟩

/-! ## The upload requests -/

theorem puts_append (a b : Trace) : puts (a ++ b) = puts a ++ puts b := by
  induction a with
  | nil => rfl
  | cons e a ih => cases e <;> simp [puts, ih]

/-- The requests of the second loop, when it runs to its end: one for each
flagged slot, in the order of the slots. -/
theorem uploadLoop_puts (env : Env) (m : GoMap) :
    ∀ (es : List (String × SandboxItem)) (t : Trace),
      (uploadLoop env m t es).1 = none →
      ∃ reqs, puts (uploadLoop env m t es).2 = puts t ++ reqs ∧
        List.Forall₂ (fun req (e : String × SandboxItem) =>
            ∃ init, req = uploadRequest init e.2.Url (openFile env (m.index e.1)) e.1)
          reqs (es.filter fun e => e.2.Upload) := by
  intro es
  induction es with
  | nil =>
    intro t _
    exact ⟨[], by simp [uploadLoop], by simp⟩
  | cons e rest ih =>
    intro t hnone
    obtain ⟨d, item⟩ := e
    cases hu : item.Upload with
    | false =>
      rw [uploadLoop_skip env m t d item rest hu] at hnone ⊢
      obtain ⟨reqs, h1, h2⟩ := ih t hnone
      exact ⟨reqs, h1, by simpa [List.filter, hu] using h2⟩
    | true =>
      cases hn : env.newRequest t "PUT" item.Url (openFile env (m.index d)) with
      | error err =>
        rw [uploadLoop_newRequest_error env m t d item rest err hu hn] at hnone
        simp at hnone
      | ok init =>
        cases hd : env.doRequest
            (t ++ [Event.newRequest "PUT" item.Url (openFile env (m.index d)) true])
            (uploadRequest init item.Url (openFile env (m.index d)) d) with
        | some err =>
          rw [uploadLoop_doRequest_error env m t d item rest init err hu hn hd] at hnone
          simp at hnone
        | none =>
          rw [uploadLoop_doRequest_ok env m t d item rest init hu hn hd] at hnone ⊢
          obtain ⟨reqs, h1, h2⟩ := ih _ hnone
          refine ⟨uploadRequest init item.Url (openFile env (m.index d)) d :: reqs, ?_, ?_⟩
          · rw [h1, puts_append]
            simp [puts]
          · simp only [List.filter, hu]
            exact List.Forall₂.cons ⟨init, rfl⟩ h2

/-- A run in which the negotiation succeeded, no upload request failed and the
commit did not fail went through every phase. -/
theorem Upload_complete (env : Env) (name version source : String) (cb : CookbookPut)
    (sums : List String) (resp : SandboxPostResult)
    (hpost : Event.sandboxPost sums (some resp) ∈
      (CookbookService.Upload env name version source cb).2)
    (hup : ∀ e ∈ (CookbookService.Upload env name version source cb).2,
      e.isUploadFailure = false)
    (hcommit : ∀ e ∈ (CookbookService.Upload env name version source cb).2,
      e.isCommitFailure = false) :
    ∃ fileList m, walkLoop (env.walk (env.join source name)) [] = some fileList ∧
      checksumLoop env fileList (GoMap.empty, []) = .ok (m, sums) ∧
      (uploadLoop env m [Event.sandboxPost sums (some resp)] resp.Checksums).1 = none ∧
      CookbookService.Upload env name version source cb =
        (Outcome.returned none,
          (CookbookService.Put env
            ((uploadLoop env m [Event.sandboxPost sums (some resp)] resp.Checksums).2 ++
              [Event.sandboxPut resp.ID true]) name version cb).2) := by
  obtain ⟨fileList, m, hw, hc, hcase⟩ :=
    Upload_of_sandboxPost env name version source cb sums (some resp) hpost
  refine ⟨fileList, m, hw, hc, ?_⟩
  rcases hcase with ⟨h0, _⟩ | ⟨resp0, hr0, _, hcase⟩
  · cases h0
  cases hr0
  rcases hcase with ⟨err, herr, hr⟩ | ⟨hnone, ⟨err, _, hr⟩ | ⟨_, hr⟩⟩
  · exfalso
    obtain ⟨s, hs, _, _, h3⟩ :=
      uploadLoop_trace env m resp.Checksums [Event.sandboxPost sums (some resp)]
    obtain ⟨s0, f, hs0, hf⟩ := h3 err herr
    have := hup f (by rw [hr]; simp only []; rw [hs, hs0]; simp)
    rw [hf] at this
    cases this
  · exfalso
    have := hcommit (Event.sandboxPut resp.ID false) (by rw [hr]; simp)
    simp [Event.isCommitFailure] at this
  · exact ⟨hnone, hr⟩

/-- C4: in a run in which no call fails, the requests passed to `client.Do`
are, in the order of the slots, one for each slot of the negotiation response
whose `Upload` flag is set and none for the others: a PUT to the URL of the
slot, with the file stored under the digest of the slot as body and the
`content-md5` header of that digest.  The digests of the slots of a Go map
being distinct, no two of these requests are for the same digest. -/
theorem Upload_puts_flagged (env : Env) (name version source : String) (cb : CookbookPut)
    (sums : List String) (resp : SandboxPostResult)
    (hpost : Event.sandboxPost sums (some resp) ∈
      (CookbookService.Upload env name version source cb).2)
    (hok : ∀ e ∈ (CookbookService.Upload env name version source cb).2, e.failed = false)
    (hmap : (resp.Checksums.map Prod.fst).Nodup) :
    ∃ fileList m, walkLoop (env.walk (env.join source name)) [] = some fileList ∧
      checksumLoop env fileList (GoMap.empty, []) = .ok (m, sums) ∧
      List.Forall₂ (fun req (e : String × SandboxItem) =>
          req.Method = "PUT" ∧ req.Url = e.2.Url ∧ req.Body = openFile env (m.index e.1) ∧
            headerGet req.Header "content-md5" = some (contentMd5 e.1))
        (puts (CookbookService.Upload env name version source cb).2)
        (resp.Checksums.filter fun e => e.2.Upload) ∧
      ((resp.Checksums.filter fun e => e.2.Upload).map Prod.fst).Nodup := by
  have hup : ∀ e ∈ (CookbookService.Upload env name version source cb).2,
      e.isUploadFailure = false := by
    intro e he
    cases hx : e.isUploadFailure with
    | false => rfl
    | true =>
      have := hok e he
      rw [Event.failed_of_isUploadFailure e hx] at this
      cases this
  have hcommit : ∀ e ∈ (CookbookService.Upload env name version source cb).2,
      e.isCommitFailure = false := by
    intro e he
    have := hok e he
    cases e with
    | sandboxPut id ok =>
      cases ok with
      | true => rfl
      | false => simp [Event.failed] at this
    | _ => rfl
  obtain ⟨fileList, m, hw, hc, hnone, hr⟩ :=
    Upload_complete env name version source cb sums resp hpost hup hcommit
  refine ⟨fileList, m, hw, hc, ?_, ?_⟩
  · obtain ⟨reqs, h1, h2⟩ :=
      uploadLoop_puts env m resp.Checksums [Event.sandboxPost sums (some resp)] hnone
    obtain ⟨s2, hs2, hs2shape⟩ := Put_trace env
      ((uploadLoop env m [Event.sandboxPost sums (some resp)] resp.Checksums).2 ++
        [Event.sandboxPut resp.ID true]) name version cb
    have hputs : puts (CookbookService.Upload env name version source cb).2 = reqs := by
      rw [hr]
      simp only [hs2, puts_append, h1]
      rcases hs2shape with h0 | ⟨body, ok, _, h0⟩ <;> subst h0 <;> simp [puts]
    rw [hputs]
    refine List.Forall₂.imp ?_ h2
    rintro req e ⟨init, rfl⟩
    refine ⟨rfl, rfl, rfl, ?_⟩
    simp [uploadRequest, headerGet, headerSet, List.lookup]
  · exact (hmap.sublist ((List.filter_sublist _).map Prod.fst))

/-- C7, amended: `Upload` does not compare the negotiation response with the
digests it submitted.  When the response lacks a slot for a submitted digest,
no upload request for a flagged slot fails and the commit does not fail,
`Upload` goes on to commit the sandbox of the response and to make the publish
call. -/
theorem Upload_ignores_missing_slots (env : Env) (name version source : String)
    (cb : CookbookPut) (sums : List String) (resp : SandboxPostResult)
    (hpost : Event.sandboxPost sums (some resp) ∈
      (CookbookService.Upload env name version source cb).2)
    (_hmiss : ∃ d ∈ sums, d ∉ resp.Checksums.map Prod.fst)
    (hup : ∀ e ∈ (CookbookService.Upload env name version source cb).2,
      e.isUploadFailure = false)
    (hcommit : ∀ e ∈ (CookbookService.Upload env name version source cb).2,
      e.isCommitFailure = false) :
    Event.sandboxPut resp.ID true ∈ (CookbookService.Upload env name version source cb).2 ∧
      Event.cookbookPut name version cb ∈
        (CookbookService.Upload env name version source cb).2 := by
  obtain ⟨fileList, m, _, _, _, hr⟩ :=
    Upload_complete env name version source cb sums resp hpost hup hcommit
  obtain ⟨s2, hs2, _⟩ := Put_trace env
    ((uploadLoop env m [Event.sandboxPost sums (some resp)] resp.Checksums).2 ++
      [Event.sandboxPut resp.ID true]) name version cb
  rw [hr]
  simp only [hs2]
  refine ⟨?_, ?_⟩ <;> simp

/-- C8, amended: the manifest that `Upload` publishes is its argument
`cookbookDestriptionJson` as the caller supplied it, under the name and the
version of the call; the manifest request is a PUT of the JSON encoding of
that argument to `cookbooks/name/version`.  Its checksums are not compared
with the sandbox. -/
theorem Upload_publishes_argument (env : Env) (name version source : String)
    (cb : CookbookPut) :
    (∀ n v c, Event.cookbookPut n v c ∈ (CookbookService.Upload env name version source cb).2 →
        n = name ∧ v = version ∧ c = cb) ∧
      ∀ method path body ok,
        Event.magicRequest method path body ok ∈
          (CookbookService.Upload env name version source cb).2 →
        method = "PUT" ∧ path = "cookbooks/" ++ name ++ "/" ++ version ∧
          ∃ b, body = some b ∧ env.JSONReader cb = .ok b := by
  have hshape : ∃ pre s2, (CookbookService.Upload env name version source cb).2 = pre ++ s2 ∧
      (∀ e ∈ pre, (∀ n v c, e ≠ Event.cookbookPut n v c) ∧
        ∀ a b c d, e ≠ Event.magicRequest a b c d) ∧
      (s2 = [] ∨ ∃ s3, s2 = Event.cookbookPut name version cb :: s3 ∧
        (s3 = [] ∨ ∃ body ok, env.JSONReader cb = .ok body ∧ s3 = [Event.magicRequest "PUT"
          ("cookbooks/" ++ name ++ "/" ++ version) (some body) ok])) := by
    rcases Upload_cases env name version source cb with ⟨_, hr⟩ | ⟨fileList, _, hcase⟩
    · exact ⟨[], [], by rw [hr]; rfl, by simp, Or.inl rfl⟩
    rcases hcase with ⟨err, _, hr⟩ | ⟨m, sums, _, hcase⟩
    · exact ⟨[], [], by rw [hr]; rfl, by simp, Or.inl rfl⟩
    rcases hcase with ⟨err, _, hr⟩ | ⟨resp, _, hcase⟩
    · refine ⟨_, [], by rw [hr, List.append_nil], ?_, Or.inl rfl⟩
      intro e he
      simp at he
      rcases he with he | he <;> subst he <;> simp
    obtain ⟨s, hs, hupl, _⟩ := uploadLoop_after_post env m sums resp
    have hloop : ∀ e ∈ (uploadLoop env m [Event.sandboxPost sums (some resp)]
        resp.Checksums).2, (∀ n v c, e ≠ Event.cookbookPut n v c) ∧
        ∀ a b c d, e ≠ Event.magicRequest a b c d := by
      intro e he
      simp only [hs, List.mem_cons] at he
      rcases he with he | he
      · subst he; simp
      · have := hupl e he
        constructor
        · intro n v c hx; subst hx; simp [Event.isUpload] at this
        · intro a b c d hx; subst hx; simp [Event.isUpload] at this
    rcases hcase with ⟨err, _, hr⟩ | ⟨_, ⟨err, _, hr⟩ | ⟨_, hr⟩⟩
    · exact ⟨_, [], by rw [hr, List.append_nil], hloop, Or.inl rfl⟩
    · refine ⟨_, [], by rw [hr, List.append_nil], ?_, Or.inl rfl⟩
      intro e he
      simp only [List.mem_append, List.mem_cons, List.mem_singleton, List.not_mem_nil,
        or_false] at he
      rcases he with he | he | he
      · exact hloop e he
      · subst he; simp
      · subst he; simp
    · obtain ⟨s2, hs2, hs2shape⟩ := Put_trace env
        ((uploadLoop env m [Event.sandboxPost sums (some resp)] resp.Checksums).2 ++
          [Event.sandboxPut resp.ID true]) name version cb
      refine ⟨_, _, by rw [hr]; exact hs2, ?_, Or.inr ⟨s2, rfl, hs2shape⟩⟩
      intro e he
      simp only [List.mem_append, List.mem_singleton] at he
      rcases he with he | he
      · exact hloop e he
      · subst he; simp
  obtain ⟨pre, s2, htr, hpre, hs2⟩ := hshape
  rw [htr]
  constructor
  · intro n v c hmem
    simp only [List.mem_append] at hmem
    rcases hmem with hmem | hmem
    · exact absurd rfl ((hpre _ hmem).1 n v c)
    · rcases hs2 with h0 | ⟨s3, h0, hs3⟩
      · subst h0; simp at hmem
      · subst h0
        simp only [List.mem_cons] at hmem
        rcases hmem with hmem | hmem
        · simpa using hmem
        · rcases hs3 with h1 | ⟨body, ok, _, h1⟩ <;> subst h1 <;> simp at hmem
  · intro method path body ok hmem
    simp only [List.mem_append] at hmem
    rcases hmem with hmem | hmem
    · exact absurd rfl ((hpre _ hmem).2 method path body ok)
    · rcases hs2 with h0 | ⟨s3, h0, hs3⟩
      · subst h0; simp at hmem
      · subst h0
        simp only [List.mem_cons] at hmem
        rcases hmem with hmem | hmem
        · simp at hmem
        · rcases hs3 with h1 | ⟨b, ok0, hj, h1⟩
          · subst h1; simp at hmem
          · subst h1
            simp at hmem
            obtain ⟨h1, h2, h3, _⟩ := hmem
            exact ⟨h1, h2, b, h3, hj⟩

/-! ## The `content-md5` header -/

/-- A lowercase hex digit is one byte, `reverseHexTable` gives its value and
`%x` prints that value as the digit. -/
theorem lowerHex_digit (c : Char) (h : isLowerHex c = true) :
    utf8Bytes c = [c.toNat] ∧
      ∃ a, a < 16 ∧ fromHexChar c.toNat = some a ∧ hexDigit a = c := by
  simp only [isLowerHex, Bool.or_eq_true, Bool.and_eq_true, decide_eq_true_eq] at h
  constructor
  · have : c.toNat < 128 := by omega
    simp [utf8Bytes, this]
  · rcases h with ⟨h1, h2⟩ | ⟨h1, h2⟩
    · refine ⟨c.toNat - 48, by omega, ?_, ?_⟩
      · simp [fromHexChar, h1, h2]
      · have h3 : c.toNat - 48 < 10 := by omega
        have h4 : 48 + (c.toNat - 48) = c.toNat := by omega
        simp [hexDigit, h3, h4]
    · refine ⟨c.toNat - 97 + 10, by omega, ?_, ?_⟩
      · have h3 : ¬ c.toNat ≤ 57 := by omega
        simp [fromHexChar, h1, h2, h3]
      · have h3 : ¬ c.toNat - 97 + 10 < 10 := by omega
        have h4 : 87 + (c.toNat - 97 + 10) = c.toNat := by omega
        simp [hexDigit, h3, h4]

/-- The bytes of a string of lowercase hex digits of even length decode
without error, and `%x` prints the decoded bytes as the string. -/
theorem hexDecode_lowerHex :
    ∀ (n : Nat) (cs : List Char), cs.length = 2 * n → (∀ c ∈ cs, isLowerHex c = true) →
      ∃ raw, hexDecode (cs.flatMap utf8Bytes) = (raw, none) ∧ raw.length = n ∧
        (∀ b ∈ raw, b < 256) ∧
        (raw.flatMap fun x => [hexDigit (x / 16 % 16), hexDigit (x % 16)]) = cs := by
  intro n
  induction n with
  | zero =>
    intro cs hlen _
    have : cs = [] := List.length_eq_zero.mp (by simpa using hlen)
    subst this
    exact ⟨[], by simp [hexDecode]⟩
  | succ n ih =>
    intro cs hlen hhex
    match cs, hlen, hhex with
    | c1 :: c2 :: rest, hlen, hhex =>
      have hrest : rest.length = 2 * n := by simp at hlen; omega
      obtain ⟨raw, hraw, hl, hb, hback⟩ := ih rest hrest (fun c hc => hhex c (by simp [hc]))
      obtain ⟨hu1, a, ha, hfa, hda⟩ := lowerHex_digit c1 (hhex c1 (by simp))
      obtain ⟨hu2, b, hb2, hfb, hdb⟩ := lowerHex_digit c2 (hhex c2 (by simp))
      refine ⟨(a * 16 + b) :: raw, ?_, by simp [hl], ?_, ?_⟩
      · simp [List.flatMap_cons, hu1, hu2, hexDecode, hfa, hfb, hraw]
      · intro x hx
        simp only [List.mem_cons] at hx
        rcases hx with hx | hx
        · omega
        · exact hb x hx
      · have e1 : (a * 16 + b) / 16 % 16 = a := by omega
        have e2 : (a * 16 + b) % 16 = b := by omega
        simp [List.flatMap_cons, e1, e2, hda, hdb, hback]
    | [_], hlen, _ => simp at hlen; omega
    | [], hlen, _ => simp at hlen

theorem base64Char_val : ∀ v, v < 64 →
    base64Val (base64Char v) = some v ∧ base64Char v ≠ '=' ∧ base64Char v ≠ '\r' ∧
      base64Char v ≠ '\n' := by
  decide

/-- Decoding undoes encoding in `base64.StdEncoding`. -/
theorem base64Decode_encode :
    ∀ (n : Nat) (bs : Bytes), bs.length ≤ n → (∀ b ∈ bs, b < 256) →
      base64Decode (base64Encode bs) = some bs := by
  intro n
  induction n using Nat.strong_induction_on with
  | _ n ih =>
    intro bs hlen hb
    match bs, hlen, hb with
    | [], _, _ => simp [base64Encode, base64Decode]
    | [a], _, hb =>
      have ha : a < 256 := hb a (by simp)
      obtain ⟨h1, -, -, -⟩ := base64Char_val (a / 4 % 64) (by omega)
      obtain ⟨h2, -, -, -⟩ := base64Char_val (a % 4 * 16) (by omega)
      simp only [base64Encode, base64Decode, h1, h2]
      simp
      omega
    | [a, b], _, hb =>
      have ha : a < 256 := hb a (by simp)
      have hb' : b < 256 := hb b (by simp)
      obtain ⟨h1, -, -, -⟩ := base64Char_val (a / 4 % 64) (by omega)
      obtain ⟨h2, -, -, -⟩ := base64Char_val (a % 4 * 16 + b / 16 % 16) (by omega)
      obtain ⟨h3, h3e, -, -⟩ := base64Char_val (b % 16 * 4) (by omega)
      simp only [base64Encode, base64Decode, h1, h2, h3]
      simp [h3e]
      omega
    | a :: b :: c :: rest, hlen, hb =>
      have ha : a < 256 := hb a (by simp)
      have hb' : b < 256 := hb b (by simp)
      have hc : c < 256 := hb c (by simp)
      obtain ⟨h1, -, -, -⟩ := base64Char_val (a / 4 % 64) (by omega)
      obtain ⟨h2, -, -, -⟩ := base64Char_val (a % 4 * 16 + b / 16 % 16) (by omega)
      obtain ⟨h3, -, -, -⟩ := base64Char_val (b % 16 * 4 + c / 64 % 4) (by omega)
      obtain ⟨h4, h4e, -, -⟩ := base64Char_val (c % 64) (by omega)
      have hrec := ih rest.length (by simp at hlen; omega) rest (Nat.le_refl _)
        (fun x hx => hb x (by simp [hx]))
      simp only [base64Encode, base64Decode, h1, h2, h3, h4, hrec]
      simp [h4e]
      omega

/-- The encoder of `base64.StdEncoding` writes no line break. -/
theorem base64Encode_no_newline :
    ∀ (n : Nat) (bs : Bytes), bs.length ≤ n →
      ∀ ch ∈ base64Encode bs, ch ≠ '\r' ∧ ch ≠ '\n' := by
  intro n
  induction n using Nat.strong_induction_on with
  | _ n ih =>
    intro bs hlen
    match bs, hlen with
    | [], _ => simp [base64Encode]
    | [a], _ =>
      obtain ⟨-, -, h1⟩ := base64Char_val (a / 4 % 64) (by omega)
      obtain ⟨-, -, h2⟩ := base64Char_val (a % 4 * 16) (by omega)
      intro ch hch
      simp only [base64Encode, List.mem_cons, List.mem_singleton, List.not_mem_nil,
        or_false] at hch
      rcases hch with hch | hch | hch | hch <;> subst hch
      · exact h1
      · exact h2
      · decide
      · decide
    | [a, b], _ =>
      obtain ⟨-, -, h1⟩ := base64Char_val (a / 4 % 64) (by omega)
      obtain ⟨-, -, h2⟩ := base64Char_val (a % 4 * 16 + b / 16 % 16) (by omega)
      obtain ⟨-, -, h3⟩ := base64Char_val (b % 16 * 4) (by omega)
      intro ch hch
      simp only [base64Encode, List.mem_cons, List.mem_singleton, List.not_mem_nil,
        or_false] at hch
      rcases hch with hch | hch | hch | hch <;> subst hch
      · exact h1
      · exact h2
      · exact h3
      · decide
    | a :: b :: c :: rest, hlen =>
      obtain ⟨-, -, h1⟩ := base64Char_val (a / 4 % 64) (by omega)
      obtain ⟨-, -, h2⟩ := base64Char_val (a % 4 * 16 + b / 16 % 16) (by omega)
      obtain ⟨-, -, h3⟩ := base64Char_val (b % 16 * 4 + c / 64 % 4) (by omega)
      obtain ⟨-, -, h4⟩ := base64Char_val (c % 64) (by omega)
      have hrec := ih rest.length (by simp at hlen; omega) rest (Nat.le_refl _)
      intro ch hch
      simp only [base64Encode, List.mem_cons] at hch
      rcases hch with hch | hch | hch | hch | hch
      · subst hch; exact h1
      · subst hch; exact h2
      · subst hch; exact h3
      · subst hch; exact h4
      · exact hrec ch hch

/-- In `base64.StdEncoding`, `DecodeString` undoes `EncodeToString`. -/
theorem base64DecodeString_encodeToString (bs : Bytes) (hb : ∀ b ∈ bs, b < 256) :
    base64DecodeString (base64EncodeToString bs) = some bs := by
  unfold base64DecodeString base64EncodeToString
  have hfilter : (base64Encode bs).filter (fun c => c != '\r' && c != '\n') =
      base64Encode bs := by
    rw [List.filter_eq_self]
    intro ch hch
    obtain ⟨h1, h2⟩ := base64Encode_no_newline bs.length bs (Nat.le_refl _) ch hch
    simp [h1, h2]
  simp only [String.toList]
  rw [hfilter]
  exact base64Decode_encode bs.length bs (Nat.le_refl _) hb

/-- The `content-md5` value of a digest of 32 lowercase hex digits: the hex
decoding gives 16 bytes without error, the value is their padded base64
encoding, decoding it gives the bytes back and `%x` prints them as the
digest. -/
theorem contentMd5_lowerHex (digest : String) (hlen : digest.length = 32)
    (hhex : ∀ c ∈ digest.toList, isLowerHex c = true) :
    ∃ raw, hexDecodeString digest = (raw, none) ∧ raw.length = 16 ∧
      contentMd5 digest = base64EncodeToString raw ∧
      base64DecodeString (contentMd5 digest) = some raw ∧
      sprintfHex raw = digest := by
  have hlen2 : digest.toList.length = 2 * 16 := by
    rcases digest with ⟨l⟩
    exact hlen
  obtain ⟨raw, hraw, hl, hb, hback⟩ := hexDecode_lowerHex 16 digest.toList hlen2 hhex
  have hdec : hexDecodeString digest = (raw, none) := by
    simpa [hexDecodeString, stringBytes] using hraw
  have hmd5 : contentMd5 digest = base64EncodeToString raw := by
    simp [contentMd5, hdec]
  refine ⟨raw, hdec, hl, hmd5, ?_, ?_⟩
  · rw [hmd5]
    exact base64DecodeString_encodeToString raw hb
  · simp [sprintfHex, hback]

/-- A request that the second loop passes to `client.Do` is the request of a
flagged slot. -/
theorem uploadLoop_doRequest_mem (env : Env) (m : GoMap) :
    ∀ (es : List (String × SandboxItem)) (t : Trace) (req : Request) (ok : Bool),
      Event.doRequest req ok ∈ (uploadLoop env m t es).2 →
      Event.doRequest req ok ∈ t ∨
        ∃ d item init, (d, item) ∈ es ∧ item.Upload = true ∧
          req = uploadRequest init item.Url (openFile env (m.index d)) d := by
  intro es
  induction es with
  | nil =>
    intro t req ok h
    exact Or.inl (by simpa [uploadLoop] using h)
  | cons e rest ih =>
    intro t req ok h
    obtain ⟨d, item⟩ := e
    cases hu : item.Upload with
    | false =>
      rw [uploadLoop_skip env m t d item rest hu] at h
      rcases ih t req ok h with h1 | ⟨d1, item1, init1, hmem, hflag, hreq⟩
      · exact Or.inl h1
      · exact Or.inr ⟨d1, item1, init1, by simp [hmem], hflag, hreq⟩
    | true =>
      cases hn : env.newRequest t "PUT" item.Url (openFile env (m.index d)) with
      | error err =>
        rw [uploadLoop_newRequest_error env m t d item rest err hu hn] at h
        left
        simpa using h
      | ok init =>
        cases hd : env.doRequest
            (t ++ [Event.newRequest "PUT" item.Url (openFile env (m.index d)) true])
            (uploadRequest init item.Url (openFile env (m.index d)) d) with
        | some err =>
          rw [uploadLoop_doRequest_error env m t d item rest init err hu hn hd] at h
          simp only [List.mem_append, List.mem_cons, List.mem_singleton, List.not_mem_nil,
            or_false] at h
          rcases h with h | h | h
          · exact Or.inl h
          · simp at h
          · simp only [Event.doRequest.injEq] at h
            exact Or.inr ⟨d, item, init, by simp, hu, h.1⟩
        | none =>
          rw [uploadLoop_doRequest_ok env m t d item rest init hu hn hd] at h
          rcases ih _ req ok h with h1 | ⟨d1, item1, init1, hmem, hflag, hreq⟩
          · simp only [List.mem_append, List.mem_cons, List.mem_singleton, List.not_mem_nil,
              or_false] at h1
            rcases h1 with h1 | h1 | h1
            · exact Or.inl h1
            · simp at h1
            · simp only [Event.doRequest.injEq] at h1
              exact Or.inr ⟨d, item, init, by simp, hu, h1.1⟩
          · exact Or.inr ⟨d1, item1, init1, by simp [hmem], hflag, hreq⟩

/-- C5: a request that `Upload` passes to `client.Do` is the PUT for a flagged
slot of the negotiation response, to the URL of the slot, with the headers
`content-type: application/x-binary`, `accept: application/json` and
`content-md5`.  When the digest of the slot is 32 lowercase hex digits, the
`%x` rendering of a 16-byte sum, the value of `content-md5` is the padded
standard base64 encoding of the 16 bytes that hex-decoding the digest gives:
base64-decoding it gives these bytes back and `%x` prints them as the
digest. -/
theorem Upload_content_md5 (env : Env) (name version source : String) (cb : CookbookPut)
    (req : Request) (ok : Bool)
    (h : Event.doRequest req ok ∈ (CookbookService.Upload env name version source cb).2) :
    ∃ sums resp d item,
      Event.sandboxPost sums (some resp) ∈
        (CookbookService.Upload env name version source cb).2 ∧
      (d, item) ∈ resp.Checksums ∧ item.Upload = true ∧
      req.Method = "PUT" ∧ req.Url = item.Url ∧
      headerGet req.Header "content-type" = some "application/x-binary" ∧
      headerGet req.Header "accept" = some "application/json" ∧
      headerGet req.Header "content-md5" = some (contentMd5 d) ∧
      (d.length = 32 → (∀ c ∈ d.toList, isLowerHex c = true) →
        ∃ raw, hexDecodeString d = (raw, none) ∧ raw.length = 16 ∧
          contentMd5 d = base64EncodeToString raw ∧
          base64DecodeString (contentMd5 d) = some raw ∧
          sprintfHex raw = d) := by
  have key : ∀ (m : GoMap) (sums : List String) (resp : SandboxPostResult) (tail : Trace),
      (∀ e ∈ tail, ∀ r o, e ≠ Event.doRequest r o) →
      (CookbookService.Upload env name version source cb).2 =
        (uploadLoop env m [Event.sandboxPost sums (some resp)] resp.Checksums).2 ++ tail →
      ∃ sums resp d item,
        Event.sandboxPost sums (some resp) ∈
          (CookbookService.Upload env name version source cb).2 ∧
        (d, item) ∈ resp.Checksums ∧ item.Upload = true ∧
        req.Method = "PUT" ∧ req.Url = item.Url ∧
        headerGet req.Header "content-type" = some "application/x-binary" ∧
        headerGet req.Header "accept" = some "application/json" ∧
        headerGet req.Header "content-md5" = some (contentMd5 d) ∧
        (d.length = 32 → (∀ c ∈ d.toList, isLowerHex c = true) →
          ∃ raw, hexDecodeString d = (raw, none) ∧ raw.length = 16 ∧
            contentMd5 d = base64EncodeToString raw ∧
            base64DecodeString (contentMd5 d) = some raw ∧
            sprintfHex raw = d) := by
    intro m sums resp tail htail htr
    obtain ⟨s, hs, _, _⟩ := uploadLoop_after_post env m sums resp
    have hmem : Event.doRequest req ok ∈
        (uploadLoop env m [Event.sandboxPost sums (some resp)] resp.Checksums).2 := by
      rw [htr, List.mem_append] at h
      rcases h with h | h
      · exact h
      · exact absurd rfl (htail _ h req ok)
    rcases uploadLoop_doRequest_mem env m resp.Checksums _ req ok hmem with
      h0 | ⟨d, item, init, hin, hflag, hreq⟩
    · simp at h0
    · refine ⟨sums, resp, d, item, ?_, hin, hflag, ?_⟩
      · rw [htr, hs]; simp
      · subst hreq
        refine ⟨rfl, rfl, ?_, ?_, ?_, fun hlen hhex => contentMd5_lowerHex d hlen hhex⟩
        · simp [uploadRequest, headerGet, headerSet, List.lookup]
        · simp [uploadRequest, headerGet, headerSet, List.lookup]
        · simp [uploadRequest, headerGet, headerSet, List.lookup]
  rcases Upload_cases env name version source cb with ⟨_, hr⟩ | ⟨fileList, _, hcase⟩
  · rw [hr] at h; simp at h
  rcases hcase with ⟨err, _, hr⟩ | ⟨m, sums, _, hcase⟩
  · rw [hr] at h; simp at h
  rcases hcase with ⟨err, _, hr⟩ | ⟨resp, _, hcase⟩
  · rw [hr] at h; simp at h
  rcases hcase with ⟨err, _, hr⟩ | ⟨_, ⟨err, _, hr⟩ | ⟨_, hr⟩⟩
  · exact key m sums resp [] (by simp) (by rw [hr, List.append_nil])
  · refine key m sums resp _ ?_ (by rw [hr])
    intro e he r o
    simp at he
    rcases he with he | he <;> subst he <;> simp
  · obtain ⟨s2, hs2, hs2shape⟩ := Put_trace env
      ((uploadLoop env m [Event.sandboxPost sums (some resp)] resp.Checksums).2 ++
        [Event.sandboxPut resp.ID true]) name version cb
    refine key m sums resp ([Event.sandboxPut resp.ID true] ++
      Event.cookbookPut name version cb :: s2) ?_ (by rw [hr]; simp only [hs2, List.append_assoc])
    intro e he r o
    simp only [List.singleton_append, List.mem_cons] at he
    rcases he with he | he | he
    · subst he; simp
    · subst he; simp
    · rcases hs2shape with h0 | ⟨body, ok0, _, h0⟩
      · subst h0; simp at he
      · subst h0
        simp at he
        subst he
        simp

/-! ## The claims on the concrete cookbook -/

/-- Witness of C1: the upload of `A` succeeds, the upload of `B` fails. -/
theorem Upload_upload_failure_aborts_witness :
    (∃ e ∈ (CookbookService.Upload envUploadFails "demo" "0.1.0" "src" demoCookbook).2,
        e.isUploadFailure = true) ∧
      (∃ err, (CookbookService.Upload envUploadFails "demo" "0.1.0" "src" demoCookbook).1 =
        Outcome.returned (some err)) ∧
      ∀ e ∈ (CookbookService.Upload envUploadFails "demo" "0.1.0" "src" demoCookbook).2,
        e.isCommit = false ∧ e.isPublish = false :=
  ⟨by decide,
    Upload_upload_failure_aborts envUploadFails "demo" "0.1.0" "src" demoCookbook (by decide)⟩

/-- Witness of C2: a run whose commit fails, and a run that publishes. -/
theorem Upload_publish_after_commit_witness :
    (∀ e ∈ (CookbookService.Upload envCommitFails "demo" "0.1.0" "src" demoCookbook).2,
        e.isPublish = false) ∧
      ∃ sums resp, envOk.sandboxPost [] sums = .ok resp ∧
        Event.sandboxPost sums (some resp) ∈
          (CookbookService.Upload envOk "demo" "0.1.0" "src" demoCookbook).2.take 4 ∧
        Event.sandboxPut resp.ID true ∈
          (CookbookService.Upload envOk "demo" "0.1.0" "src" demoCookbook).2.take 4 :=
  ⟨(Upload_publish_after_commit envCommitFails "demo" "0.1.0" "src" demoCookbook).1
      ⟨"sandbox1", by decide⟩,
    (Upload_publish_after_commit envOk "demo" "0.1.0" "src" demoCookbook).2
      ((CookbookService.Upload envOk "demo" "0.1.0" "src" demoCookbook).2.take 4)
      ((CookbookService.Upload envOk "demo" "0.1.0" "src" demoCookbook).2.drop 5)
      "demo" "0.1.0" demoCookbook (by decide)⟩

/-- C3, counterexample: `files/default/a.txt` and `recipes/default.rb` both
hold `A`, and the checksum list passed to `Sandboxes.Post` holds the digest of
`A` twice. -/
theorem Upload_submits_duplicate_digest :
    Event.sandboxPost [digestA, digestA] (some respMissing) ∈
        (CookbookService.Upload envOk "demo" "0.1.0" "src" demoCookbook).2 ∧
      ¬ [digestA, digestA].Nodup := by
  decide

/-- Witness of the amended C3. -/
theorem Upload_submits_digest_per_file_witness :
    [digestA, digestB, digestA] =
        (((envUploadFails.walk (envUploadFails.join "src" "demo")).filter
          fun e => e.2 == some false).map Prod.fst).map
          (fun f => (ComputeMd5 envUploadFails f).1) ∧
      ∀ f ∈ ((envUploadFails.walk (envUploadFails.join "src" "demo")).filter
        fun e => e.2 == some false).map Prod.fst, (ComputeMd5 envUploadFails f).2 = none :=
  Upload_submits_digest_per_file envUploadFails "demo" "0.1.0" "src" demoCookbook
    [digestA, digestB, digestA] (some respTwo) (by decide)

/-- Witness of C4: the two files with the content `A` cause one request. -/
theorem Upload_puts_flagged_witness :
    ∃ fileList m, walkLoop (envOk.walk (envOk.join "src" "demo")) [] = some fileList ∧
      checksumLoop envOk fileList (GoMap.empty, []) = .ok (m, [digestA, digestA]) ∧
      List.Forall₂ (fun req (e : String × SandboxItem) =>
          req.Method = "PUT" ∧ req.Url = e.2.Url ∧ req.Body = openFile envOk (m.index e.1) ∧
            headerGet req.Header "content-md5" = some (contentMd5 e.1))
        (puts (CookbookService.Upload envOk "demo" "0.1.0" "src" demoCookbook).2)
        (respMissing.Checksums.filter fun e => e.2.Upload) ∧
      ((respMissing.Checksums.filter fun e => e.2.Upload).map Prod.fst).Nodup :=
  Upload_puts_flagged envOk "demo" "0.1.0" "src" demoCookbook [digestA, digestA] respMissing
    (by decide) (by decide) (by decide)

/-- Witness of C5: the request for the content `A`, whose digest is 32
lowercase hex digits. -/
theorem Upload_content_md5_witness :
    Event.doRequest (uploadRequest [] "https://chef/upload/A"
        (some "src/demo/recipes/default.rb") digestA) true ∈
        (CookbookService.Upload envOk "demo" "0.1.0" "src" demoCookbook).2 ∧
      digestA.length = 32 ∧ (∀ c ∈ digestA.toList, isLowerHex c = true) ∧
      ∃ raw, hexDecodeString digestA = (raw, none) ∧ raw.length = 16 ∧
        headerGet (uploadRequest [] "https://chef/upload/A"
          (some "src/demo/recipes/default.rb") digestA).Header "content-md5" =
          some (base64EncodeToString raw) ∧
        base64DecodeString (contentMd5 digestA) = some raw ∧
        sprintfHex raw = digestA := by
  obtain ⟨sums, resp, d, item, hpost, hmem, _, _, _, _, _, hmd5, hdigest⟩ :=
    Upload_content_md5 envOk "demo" "0.1.0" "src" demoCookbook
      (uploadRequest [] "https://chef/upload/A" (some "src/demo/recipes/default.rb") digestA)
      true (by decide)
  have htr : (CookbookService.Upload envOk "demo" "0.1.0" "src" demoCookbook).2 =
      [Event.sandboxPost [digestA, digestA] (some respMissing),
        Event.newRequest "PUT" "https://chef/upload/A" (some "src/demo/recipes/default.rb") true,
        Event.doRequest (uploadRequest [] "https://chef/upload/A"
          (some "src/demo/recipes/default.rb") digestA) true,
        Event.sandboxPut "sandbox1" true,
        Event.cookbookPut "demo" "0.1.0" demoCookbook,
        Event.magicRequest "PUT" "cookbooks/demo/0.1.0" (some "manifest") true] := by
    decide
  rw [htr] at hpost
  simp only [List.mem_cons, Event.sandboxPost.injEq, Option.some.injEq, List.mem_singleton,
    List.not_mem_nil, or_false, false_or, reduceCtorEq] at hpost
  obtain ⟨_, hresp⟩ := hpost
  subst hresp
  simp only [respMissing, List.mem_singleton, Prod.mk.injEq] at hmem
  obtain ⟨hd, _⟩ := hmem
  subst hd
  obtain ⟨raw, h1, h2, h3, h4, h5⟩ := hdigest (by decide) (by decide)
  exact ⟨by decide, by decide, by decide, raw, h1, h2, by rw [hmd5, h3], h4, h5⟩

/-- C6, the failing run: the manifest request fails and `Upload` returns
nil. -/
theorem Upload_drops_publish_error :
    Event.magicRequest "PUT" "cookbooks/demo/0.1.0" (some "manifest") false ∈
        (CookbookService.Upload envPublishFails "demo" "0.1.0" "src" demoCookbook).2 ∧
      (CookbookService.Put envPublishFails
        ((CookbookService.Upload envPublishFails "demo" "0.1.0" "src" demoCookbook).2.take 4)
        "demo" "0.1.0" demoCookbook).1 = some "publish rejected" ∧
      (CookbookService.Upload envPublishFails "demo" "0.1.0" "src" demoCookbook).1 =
        Outcome.returned none := by
  decide

/-- C7, counterexample: the digest of `A` is submitted, the response holds no
slot for it, and `Upload` commits the sandbox, publishes the manifest and
returns nil. -/
theorem Upload_accepts_incomplete_response :
    Event.sandboxPost [digestA, digestA] (some respEmpty) ∈
        (CookbookService.Upload envNoSlots "demo" "0.1.0" "src" demoCookbook).2 ∧
      digestA ∉ respEmpty.Checksums.map Prod.fst ∧
      (CookbookService.Upload envNoSlots "demo" "0.1.0" "src" demoCookbook).1 =
        Outcome.returned none ∧
      Event.sandboxPut "sandbox1" true ∈
        (CookbookService.Upload envNoSlots "demo" "0.1.0" "src" demoCookbook).2 ∧
      Event.cookbookPut "demo" "0.1.0" demoCookbook ∈
        (CookbookService.Upload envNoSlots "demo" "0.1.0" "src" demoCookbook).2 := by
  decide

/-- Witness of the amended C7: the digests of `A` and `B` are submitted, the
response holds a flagged slot for `A` and no slot for `B`. -/
theorem Upload_ignores_missing_slots_witness :
    Event.sandboxPost [digestA, digestB, digestA] (some respMissing) ∈
        (CookbookService.Upload envPartialSlots "demo" "0.1.0" "src" demoCookbook).2 ∧
      (∃ d ∈ [digestA, digestB, digestA], d ∉ respMissing.Checksums.map Prod.fst) ∧
      Event.sandboxPut respMissing.ID true ∈
        (CookbookService.Upload envPartialSlots "demo" "0.1.0" "src" demoCookbook).2 ∧
      Event.cookbookPut "demo" "0.1.0" demoCookbook ∈
        (CookbookService.Upload envPartialSlots "demo" "0.1.0" "src" demoCookbook).2 :=
  ⟨by decide, by decide,
    Upload_ignores_missing_slots envPartialSlots "demo" "0.1.0" "src" demoCookbook
      [digestA, digestB, digestA] respMissing (by decide) (by decide) (by decide)
      (by decide)⟩

/-- C8, counterexample: the sandbox of the run holds the digest of `A` only,
it is committed, and the manifest published has an entry with another
checksum. -/
theorem Upload_publishes_unlinked_digest :
    Event.sandboxPost [digestA, digestA] (some respMissing) ∈
        (CookbookService.Upload envOk "demo" "0.1.0" "src" strayCookbook).2 ∧
      Event.sandboxPut "sandbox1" true ∈
        (CookbookService.Upload envOk "demo" "0.1.0" "src" strayCookbook).2 ∧
      Event.cookbookPut "demo" "0.1.0" strayCookbook ∈
        (CookbookService.Upload envOk "demo" "0.1.0" "src" strayCookbook).2 ∧
      ∃ item ∈ strayCookbook.Templates, item.Checksum ∉ respMissing.Checksums.map Prod.fst := by
  decide

/-- Witness of the amended C8. -/
theorem Upload_publishes_argument_witness :
    ("demo" = "demo" ∧ "0.1.0" = "0.1.0" ∧ strayCookbook = strayCookbook) ∧
      "PUT" = "PUT" ∧ "cookbooks/demo/0.1.0" = "cookbooks/" ++ "demo" ++ "/" ++ "0.1.0" ∧
        ∃ b, some "manifest" = some b ∧ envOk.JSONReader strayCookbook = .ok b :=
  ⟨(Upload_publishes_argument envOk "demo" "0.1.0" "src" strayCookbook).1
      "demo" "0.1.0" strayCookbook (by decide),
    (Upload_publishes_argument envOk "demo" "0.1.0" "src" strayCookbook).2
      "PUT" "cookbooks/demo/0.1.0" (some "manifest") true (by decide)⟩

/-- Witness of C9: both files hold `A`; the mapping keeps the later one,
`recipes/default.rb`, under the digest of `A`. -/
theorem checksumLoop_representative_witness :
    checksumLoop envOk ["src/demo/files/default/a.txt", "src/demo/recipes/default.rb"]
        (GoMap.empty, []) =
        .ok ((GoMap.empty.set digestA "src/demo/files/default/a.txt").set digestA
          "src/demo/recipes/default.rb", [digestA, digestA]) ∧
      ((GoMap.empty.set digestA "src/demo/files/default/a.txt").set digestA
        "src/demo/recipes/default.rb") digestA = some "src/demo/recipes/default.rb" ∧
      (∀ f ∈ ["src/demo/files/default/a.txt", "src/demo/recipes/default.rb"],
        ∃ p, ((GoMap.empty.set digestA "src/demo/files/default/a.txt").set digestA
          "src/demo/recipes/default.rb") (ComputeMd5 envOk f).1 = some p) ∧
      (∃ pre post,
        ["src/demo/files/default/a.txt", "src/demo/recipes/default.rb"] =
          pre ++ "src/demo/recipes/default.rb" :: post ∧
        ComputeMd5 envOk "src/demo/recipes/default.rb" = (digestA, none) ∧
        ∀ q ∈ post, (ComputeMd5 envOk q).1 ≠ digestA) ∧
      openFile envOk (((GoMap.empty.set digestA "src/demo/files/default/a.txt").set digestA
        "src/demo/recipes/default.rb").index digestA) = some "src/demo/recipes/default.rb" ∧
      ∃ content, envOk.ioCopy "src/demo/recipes/default.rb" = .ok content ∧
        sprintfHex (envOk.md5Sum content) = digestA :=
  ⟨by rfl, by decide,
    (checksumLoop_representative envOk
      ["src/demo/files/default/a.txt", "src/demo/recipes/default.rb"]
      ((GoMap.empty.set digestA "src/demo/files/default/a.txt").set digestA
        "src/demo/recipes/default.rb")
      [digestA, digestA] (by rfl)).2.1,
    (checksumLoop_representative envOk
      ["src/demo/files/default/a.txt", "src/demo/recipes/default.rb"]
      ((GoMap.empty.set digestA "src/demo/files/default/a.txt").set digestA
        "src/demo/recipes/default.rb")
      [digestA, digestA] (by rfl)).2.2 digestA "src/demo/recipes/default.rb" (by decide)⟩

end Chef
